import Mathlib

/-!
Verification of the PACaccounting timings module.

This file gives a shallow embedding, in Lean 4, of the parts of the
repository that the specification talks about:

* the in-memory timings ledger (`timings.py`), a dictionary
  year -> company -> record, where each record stores per-month minutes,
  a monthly extra, a soft-delete flag and a per-technician breakdown;
* the import pipeline (`importar_timings` and its helpers), including
  deduplication, the month-replacement rule and technician resolution;
* the persistence guard (`_guardar_timings_para_ficheiro`);
* the duration parser (`_parse_duracao_para_minutos`);
* the legacy worksheet scanner (`_processar_sheet_workload`);
* the company matcher of `relacao_tecnicos.py` (`match_timings`).

Python dictionaries are modelled as insertion-ordered association lists
(`List (κ × α)`): assignment to an existing key updates the binding in
place, assignment to a fresh key appends it, exactly as CPython dicts
behave.  Machine integers are modelled as `Int`, exact fractions as
`Rat`; the similarity scores produced by `difflib` are treated as an
arbitrary score function, since `difflib` is a library external to the
repository.
-/

set_option maxHeartbeats 1000000
set_option maxRecDepth 1000000
set_option exponentiation.threshold 2000
set_option linter.unusedSectionVars false

namespace PAC

universe u v

variable {κ : Type u} {α : Type v} [DecidableEq κ]

/-- Lookup in an insertion-ordered association list (Python `dict.get`). -/
def lookupA : List (κ × α) → κ → Option α
  | [], _ => none
  | (k', v) :: t, k => if k' = k then some v else lookupA t k

/-- Assignment `d[k] = v` on a Python dict: update the existing binding in
place, or append a new binding at the end. -/
def setA : List (κ × α) → κ → α → List (κ × α)
  | [], k, v => [(k, v)]
  | (k', v') :: t, k, v => if k' = k then (k, v) :: t else (k', v') :: setA t k v

/-- Removal `d.pop(k, None)` on a Python dict. -/
def popA : List (κ × α) → κ → List (κ × α)
  | [], _ => []
  | (k', v') :: t, k => if k' = k then popA t k else (k', v') :: popA t k

/-- The ordered key list of a dict (`list(d.keys())`). -/
def keyList (l : List (κ × α)) : List κ :=
  l.map Prod.fst

@[simp] theorem lookupA_nil (k : κ) : lookupA ([] : List (κ × α)) k = none := rfl

@[simp] theorem keyList_nil : keyList ([] : List (κ × α)) = [] := rfl

@[simp] theorem keyList_cons (p : κ × α) (t : List (κ × α)) :
    keyList (p :: t) = p.1 :: keyList t := rfl

theorem lookupA_cons (k' : κ) (v : α) (t : List (κ × α)) (k : κ) :
    lookupA ((k', v) :: t) k = if k' = k then some v else lookupA t k := rfl

@[simp] theorem lookupA_setA_self (l : List (κ × α)) (k : κ) (v : α) :
    lookupA (setA l k v) k = some v := by
  induction l with
  | nil => simp [setA, lookupA]
  | cons p t ih =>
    obtain ⟨k', v'⟩ := p
    by_cases h : k' = k
    · simp [setA, h, lookupA]
    · simp [setA, h, lookupA, ih]

theorem lookupA_setA_ne (l : List (κ × α)) (k k' : κ) (v : α) (h : k ≠ k') :
    lookupA (setA l k v) k' = lookupA l k' := by
  induction l with
  | nil => simp [setA, lookupA, h]
  | cons p t ih =>
    obtain ⟨k₀, v₀⟩ := p
    by_cases h₀ : k₀ = k
    · subst h₀
      simp [setA, lookupA, h]
    · simp [setA, h₀, lookupA, ih]

theorem lookupA_popA_self (l : List (κ × α)) (k : κ) :
    lookupA (popA l k) k = none := by
  induction l with
  | nil => simp [popA]
  | cons p t ih =>
    obtain ⟨k', v'⟩ := p
    by_cases h : k' = k
    · simp [popA, h, ih]
    · simp [popA, h, lookupA, ih]

theorem lookupA_popA_ne (l : List (κ × α)) (k k' : κ) (h : k ≠ k') :
    lookupA (popA l k) k' = lookupA l k' := by
  induction l with
  | nil => simp [popA]
  | cons p t ih =>
    obtain ⟨k₀, v₀⟩ := p
    by_cases h₀ : k₀ = k
    · simp [popA, h₀, lookupA, h, ih]
    · simp [popA, h₀, lookupA, ih]

theorem popA_popA (l : List (κ × α)) (k : κ) :
    popA (popA l k) k = popA l k := by
  induction l with
  | nil => simp [popA]
  | cons p t ih =>
    obtain ⟨k', v'⟩ := p
    by_cases h : k' = k
    · simp [popA, h, ih]
    · simp [popA, h, ih]

theorem popA_append (l l' : List (κ × α)) (k : κ) :
    popA (l ++ l') k = popA l k ++ popA l' k := by
  induction l with
  | nil => simp [popA]
  | cons p t ih =>
    obtain ⟨k', v'⟩ := p
    by_cases h : k' = k <;> simp [popA, h, ih]

theorem mem_keyList_iff_lookupA (l : List (κ × α)) (k : κ) :
    k ∈ keyList l ↔ (lookupA l k).isSome := by
  induction l with
  | nil => simp [keyList, lookupA]
  | cons p t ih =>
    obtain ⟨k', v'⟩ := p
    by_cases h : k' = k
    · simp [keyList, lookupA, h]
    · have hne : k ≠ k' := fun hh => h hh.symm
      simp only [keyList_cons, List.mem_cons, lookupA, h, if_false]
      constructor
      · intro hm
        rcases hm with hm | hm
        · exact absurd hm.symm h
        · exact ih.1 hm
      · intro hs
        exact Or.inr (ih.2 hs)

theorem keyList_setA_of_mem (l : List (κ × α)) (k : κ) (v : α)
    (h : (lookupA l k).isSome) : keyList (setA l k v) = keyList l := by
  induction l with
  | nil => simp [lookupA] at h
  | cons p t ih =>
    obtain ⟨k', v'⟩ := p
    by_cases h₀ : k' = k
    · simp [setA, h₀, keyList]
    · simp only [lookupA, h₀, if_false] at h
      simp only [setA, if_neg h₀, keyList_cons]
      rw [ih h]

theorem keyList_setA_of_not_mem (l : List (κ × α)) (k : κ) (v : α)
    (h : lookupA l k = none) : keyList (setA l k v) = keyList l ++ [k] := by
  induction l with
  | nil => simp [setA, keyList]
  | cons p t ih =>
    obtain ⟨k', v'⟩ := p
    by_cases h₀ : k' = k
    · simp [lookupA, h₀] at h
    · simp only [lookupA, h₀, if_false] at h
      simp only [setA, if_neg h₀, keyList_cons, List.cons_append]
      rw [ih h]

theorem setA_setA (l : List (κ × α)) (k : κ) (v w : α) :
    setA (setA l k v) k w = setA l k w := by
  induction l with
  | nil => simp [setA]
  | cons p t ih =>
    obtain ⟨k', v'⟩ := p
    by_cases h : k' = k
    · simp [setA, h]
    · simp [setA, h, ih]

theorem setA_lookup_self (l : List (κ × α)) (k : κ) (v : α)
    (h : lookupA l k = some v) : setA l k v = l := by
  induction l with
  | nil => simp [lookupA] at h
  | cons p t ih =>
    obtain ⟨k', v'⟩ := p
    by_cases h₀ : k' = k
    · subst h₀
      simp only [lookupA, if_pos rfl] at h
      injection h with hv
      simp [setA, hv]
    · simp only [lookupA, h₀, if_false] at h
      simp [setA, h₀, ih h]

theorem setA_of_lookup_none (l : List (κ × α)) (k : κ) (v : α)
    (h : lookupA l k = none) : setA l k v = l ++ [(k, v)] := by
  induction l with
  | nil => simp [setA]
  | cons p t ih =>
    obtain ⟨k', v'⟩ := p
    by_cases h₀ : k' = k
    · simp [lookupA, h₀] at h
    · simp only [lookupA, h₀, if_false] at h
      simp [setA, h₀, ih h]

theorem popA_of_lookup_none (l : List (κ × α)) (k : κ)
    (h : lookupA l k = none) : popA l k = l := by
  induction l with
  | nil => simp [popA]
  | cons p t ih =>
    obtain ⟨k', v'⟩ := p
    by_cases h₀ : k' = k
    · simp [lookupA, h₀] at h
    · simp only [lookupA, h₀, if_false] at h
      simp [popA, h₀, ih h]

theorem popA_setA_self (l : List (κ × α)) (k : κ) (v : α) :
    popA (setA l k v) k = popA l k := by
  induction l with
  | nil => simp [setA, popA]
  | cons p t ih =>
    obtain ⟨k', v'⟩ := p
    by_cases h : k' = k
    · simp [setA, popA, h]
    · simp [setA, popA, h, ih]

theorem lookupA_append_left (l l' : List (κ × α)) (k : κ) (v : α)
    (h : lookupA l k = some v) : lookupA (l ++ l') k = some v := by
  induction l with
  | nil => simp [lookupA] at h
  | cons p t ih =>
    obtain ⟨k', v'⟩ := p
    by_cases h₀ : k' = k
    · simp only [lookupA, h₀, if_pos] at h
      simp [lookupA, h₀, h]
    · simp only [lookupA, h₀, if_false] at h
      simp [lookupA, h₀, ih h]

theorem lookupA_append_of_none (l l' : List (κ × α)) (k : κ)
    (h : lookupA l k = none) : lookupA (l ++ l') k = lookupA l' k := by
  induction l with
  | nil => simp
  | cons p t ih =>
    obtain ⟨k', v'⟩ := p
    by_cases h₀ : k' = k
    · simp [lookupA, h₀] at h
    · simp only [lookupA, h₀, if_false] at h
      simp [lookupA, h₀, ih h]

theorem setA_append_left (l l' : List (κ × α)) (k : κ) (v : α)
    (h : (lookupA l k).isSome) : setA (l ++ l') k v = setA l k v ++ l' := by
  induction l with
  | nil => simp [lookupA] at h
  | cons p t ih =>
    obtain ⟨k', v'⟩ := p
    by_cases h₀ : k' = k
    · simp [setA, h₀]
    · simp only [lookupA, h₀, if_false] at h
      simp [setA, h₀, ih h]

theorem setA_append_mid (l l' : List (κ × α)) (k : κ) (x v : α)
    (h : lookupA l k = none) :
    setA (l ++ (k, x) :: l') k v = l ++ (k, v) :: l' := by
  induction l with
  | nil => simp [setA]
  | cons p t ih =>
    obtain ⟨k', v'⟩ := p
    by_cases h₀ : k' = k
    · simp [lookupA, h₀] at h
    · simp only [lookupA, h₀, if_false] at h
      simp [setA, h₀, ih h]

theorem lookupA_append_mid (l l' : List (κ × α)) (k : κ) (x : α)
    (h : lookupA l k = none) : lookupA (l ++ (k, x) :: l') k = some x := by
  rw [lookupA_append_of_none l _ k h]
  simp [lookupA]

theorem lookupA_mem_pair (l : List (κ × α)) (k : κ) (v : α)
    (h : lookupA l k = some v) : (k, v) ∈ l := by
  induction l with
  | nil => simp [lookupA] at h
  | cons p t ih =>
    obtain ⟨k', v'⟩ := p
    by_cases h₀ : k' = k
    · subst h₀
      simp only [lookupA, if_pos rfl] at h
      injection h with hv
      rw [← hv]
      exact List.mem_cons_self _ _
    · simp only [lookupA, h₀, if_false] at h
      exact List.mem_cons_of_mem _ (ih h)

theorem keyList_append (l l' : List (κ × α)) :
    keyList (l ++ l') = keyList l ++ keyList l' :=
  List.map_append _ _ _

theorem find?_eq_some_of_unique {β : Type v} (l : List β) (p : β → Bool)
    (x : β) (hx : x ∈ l) (hpx : p x = true)
    (hu : ∀ y ∈ l, p y = true → y = x) : l.find? p = some x := by
  induction l with
  | nil => simp at hx
  | cons b t ih =>
    by_cases hb : p b = true
    · have hbx : b = x := hu b (List.mem_cons_self _ _) hb
      rw [List.find?_cons_of_pos _ hb, hbx]
    · rw [List.find?_cons_of_neg _ (by simpa using hb)]
      rcases List.mem_cons.1 hx with h | h
      · exact absurd (h ▸ hpx) (by simpa using hb)
      · exact ih h (fun y hy hpy => hu y (List.mem_cons_of_mem _ hy) hpy)

/-- Two dicts with the same ordered key lists, no duplicate keys, and the
same lookups are equal. -/
theorem eq_of_keyList_eq_of_lookupA_eq (l₁ l₂ : List (κ × α))
    (hk : keyList l₁ = keyList l₂) (hnd : (keyList l₁).Nodup)
    (hl : ∀ k, lookupA l₁ k = lookupA l₂ k) : l₁ = l₂ := by
  induction l₁ generalizing l₂ with
  | nil =>
    cases l₂ with
    | nil => rfl
    | cons p t => simp [keyList] at hk
  | cons p t ih =>
    obtain ⟨k, v⟩ := p
    cases l₂ with
    | nil => simp [keyList] at hk
    | cons p₂ t₂ =>
      obtain ⟨k₂, v₂⟩ := p₂
      simp only [keyList_cons] at hk
      have hkk : k = k₂ := by
        simpa using congrArg (fun l => l.head?) hk
      subst hkk
      have hkeys : keyList t = keyList t₂ := by
        simpa using congrArg (fun l => l.tail) hk
      have hv : v = v₂ := by
        have := hl k
        simp [lookupA] at this
        exact this
      subst hv
      have hnd' : (keyList t).Nodup := by
        simp [keyList] at hnd
        exact hnd.2
      have hknot : k ∉ keyList t := by
        simp [keyList] at hnd ⊢
        exact fun b hb => hnd.1 b hb
      congr 1
      apply ih t₂ hkeys hnd'
      intro k'
      by_cases hk' : k = k'
      · subst hk'
        have h₁ : lookupA t k = none := by
          by_contra hcon
          have : (lookupA t k).isSome := by
            cases hlk : lookupA t k with
            | none => exact absurd hlk hcon
            | some _ => simp
          exact hknot ((mem_keyList_iff_lookupA t k).2 this)
        have h₂ : lookupA t₂ k = none := by
          by_contra hcon
          have hsome : (lookupA t₂ k).isSome := by
            cases hlk : lookupA t₂ k with
            | none => exact absurd hlk hcon
            | some _ => simp
          have : k ∈ keyList t₂ := (mem_keyList_iff_lookupA t₂ k).2 hsome
          rw [← hkeys] at this
          exact hknot this
        rw [h₁, h₂]
      · have := hl k'
        simpa [lookupA, hk'] using this

/-! ### String helpers

The Python code relies on `str.strip`, `str.upper`, `str.lower`,
`unicodedata` accent stripping and a few regular expressions.  They are
modelled here character by character.  Accent stripping (NFD
decomposition followed by dropping combining marks) is modelled by a
table of the Latin accented letters that occur in the repository data;
other characters are left unchanged. -/

/-- Python whitespace (`str.strip`, `\s`), ASCII part. -/
def pyIsSpace (c : Char) : Bool :=
  c = ' ' ∨ c = '\t' ∨ c = '\n' ∨ c = '\r' ∨ c = '\x0b' ∨ c = '\x0c'

/-- `str.strip()` on a character list. -/
def pyStrip (cs : List Char) : List Char :=
  ((cs.dropWhile pyIsSpace).reverse.dropWhile pyIsSpace).reverse

/-- NFD decomposition followed by dropping combining marks, restricted to
the Latin accented letters used in the repository. -/
def stripAccentChar (c : Char) : Char :=
  match c with
  | 'á' | 'à' | 'â' | 'ã' | 'ä' | 'å' => 'a'
  | 'é' | 'è' | 'ê' | 'ë' => 'e'
  | 'í' | 'ì' | 'î' | 'ï' => 'i'
  | 'ó' | 'ò' | 'ô' | 'õ' | 'ö' => 'o'
  | 'ú' | 'ù' | 'û' | 'ü' => 'u'
  | 'ç' => 'c'
  | 'ñ' => 'n'
  | 'Á' | 'À' | 'Â' | 'Ã' | 'Ä' | 'Å' => 'A'
  | 'É' | 'È' | 'Ê' | 'Ë' => 'E'
  | 'Í' | 'Ì' | 'Î' | 'Ï' => 'I'
  | 'Ó' | 'Ò' | 'Ô' | 'Õ' | 'Ö' => 'O'
  | 'Ú' | 'Ù' | 'Û' | 'Ü' => 'U'
  | 'Ç' => 'C'
  | 'Ñ' => 'N'
  | c => c

/-- Split on runs of whitespace (`re.split(r"\s+", ...)` on stripped
input, or the token list underlying `re.sub(r"\s+", " ", ...)`). -/
def splitWsAux : List Char → List Char → List String
  | [], acc => if acc.isEmpty then [] else [String.mk acc.reverse]
  | c :: rest, acc =>
    if pyIsSpace c then
      if acc.isEmpty then splitWsAux rest []
      else String.mk acc.reverse :: splitWsAux rest []
    else splitWsAux rest (c :: acc)

def splitWsToks (cs : List Char) : List String :=
  splitWsAux cs []

def joinSpace (toks : List String) : String :=
  String.intercalate " " toks

/-- Substring containment (the Python `in` operator on strings). -/
def containsSub : List Char → List Char → Bool
  | h, p => if p.isPrefixOf h then true else
      match h with
      | [] => false
      | _ :: t => containsSub t p

/-! ### Name normalisation helpers of `timings.py` -/

/-- `_norm_nome_forte`: strip, remove accents, uppercase, drop common
name particles, join with single spaces. -/
def norm_nome_forte (s : String) : String :=
  if s = "" then "" else
  let cs := (pyStrip s.data).map (fun c => (stripAccentChar c).toUpper)
  let stopwords : List String := ["DE", "DA", "DO", "DOS", "DAS", "E"]
  let tokens := (splitWsToks cs).filter (fun t => t ≠ "" ∧ t ∉ stopwords)
  joinSpace tokens

/-- Punctuation removed by `_norm_empresa_forte`
(`[\.,;:\-_/()\[\]{}&'\"+]`). -/
def empresaPunct : List Char :=
  ['.', ',', ';', ':', '-', '_', '/', '(', ')', '[', ']',
   Char.ofNat 123, Char.ofNat 125, '&', Char.ofNat 39, '"', '+']

/-- The legal-suffix words removed by `LEGAL_SUFFIX_PATTERN`
(`lda|ltda|unipessoal|sociedade|por|quotas?|sa`), as whole tokens. -/
def legalSuffixToks : List String :=
  ["lda", "ltda", "unipessoal", "sociedade", "por", "quota", "quotas", "sa"]

/-- Token-level reading of `LEGAL_SUFFIX_PATTERN.sub(" ", txt)` on a
space-normalised text: drop suffix tokens, and the two-token sequence
`s a` (the `s\s+a` alternative). -/
def removeLegalSuffixes : List String → List String
  | [] => []
  | "s" :: "a" :: rest => removeLegalSuffixes rest
  | t :: rest =>
    if t ∈ legalSuffixToks then removeLegalSuffixes rest
    else t :: removeLegalSuffixes rest

/-- `_norm_empresa_forte`: strong company-name normalisation. -/
def norm_empresa_forte (s : String) : String :=
  let t0 := pyStrip s.data
  if t0.isEmpty then "" else
  let txt := t0.map (fun c => (stripAccentChar c).toLower)
  let txt := txt.map (fun c => if c ∈ empresaPunct then ' ' else c)
  let toks := splitWsToks txt
  if toks.isEmpty then "" else
  let originalTxt := joinSpace toks
  let toks2 := removeLegalSuffixes toks
  if toks2.isEmpty then originalTxt else joinSpace toks2

/-- `_normalize_header`: lowercase alphanumeric tokens of a header. -/
def normalize_header (s : String) : String :=
  let t := pyStrip s.data
  if t.isEmpty then "" else
  let cs := t.map (fun c => (stripAccentChar c).toLower)
  let cs := cs.map (fun c => if c = '/' then ' ' else c)
  let cs := cs.map (fun c => if ('a' ≤ c ∧ c ≤ 'z') ∨ c.isDigit then c else ' ')
  joinSpace (splitWsToks cs)

/-- `_is_linha_total`: does the normalised text contain one of the
summary keywords. -/
def is_linha_total (texto : String) : Bool :=
  if texto = "" then false else
  let norm := normalize_header texto
  if norm = "" then false else
  ["total", "subtotal", "grand total", "soma", "sum"].any
    (fun kw => containsSub norm.data kw.data)

/-! ### Technician aliases (`_build_aliases_canonicos`, `ARMANDO_NORMS`,
`_resolver_tecnico`, `_canonical_tecnico_nome`) -/

/-- One `registrar` group of `_build_aliases_canonicos`: the canonical
name followed by its variants. -/
def aliasGroups : List (String × List String) :=
  [("Pedro Fernandes",
    ["Pedro Miguel da Silva Fernandes", "Pedro Fernandes"]),
   ("Ana Rodrigues",
    ["Ana Catarina Lourenço Rodrigues", "Ana Catarina Lorenco Rodrigues",
     "Ana Rodrigues"]),
   ("Daniela Fernandes",
    ["Marta Daniela Francisco Fernandes", "Daniela Francisco Fernandes"]),
   ("Celine Santos",
    ["Celine", "Celine Rodrigues dos Santos", "Celine Santos",
     "ANTONIO CANDIDO GONÇALVES DIAS", "ANTONIO CANDIDO GONCALVES DIAS"]),
   ("M Albertina Alves",
    ["Maria Albertina Pereira Alves", "M Albertina Alves"]),
   ("M Luzia Moreira",
    ["Luzia Maria Gonçalves Moreira", "Luzia Maria Goncalves Moreira",
     "M Luzia Moreira"]),
   ("João Pedro Alves",
    ["João Pedro Gonçalves Alves", "Joao Pedro Goncalves Alves",
     "João Pedro Alves", "Joao Pedro Alves"])]

/-- The alias map in registration order (`alias_map[norm] = canonico`;
within a group the same canonical value is written so first-match lookup
agrees with the Python dict). -/
def aliases_canonicos : List (String × String) :=
  (aliasGroups.map (fun g =>
    (g.1 :: g.2).filterMap (fun nome =>
      let n := norm_nome_forte nome
      if n = "" then none else some (n, g.1)))).flatten

def armando_norms : List String :=
  [norm_nome_forte "Armando Palhão Dias",
   norm_nome_forte "Armando Palhao Dias",
   norm_nome_forte "Armando Dias"]

/-- `_resolver_tecnico`: classify a technician name coming from Excel.
The empty string models Python `None` / the empty cell. -/
def resolver_tecnico (nomeExcel : String) : String × Option String :=
  if nomeExcel = "" then ("desconhecido", none) else
  let nf := norm_nome_forte nomeExcel
  if nf = "" then ("desconhecido", none)
  else if nf ∈ armando_norms then ("armando", none)
  else
    match lookupA aliases_canonicos nf with
    | some canonico => ("canonico", some canonico)
    | none => ("desconhecido", none)

/-- `_canonical_tecnico_nome`. -/
def canonical_tecnico_nome (s : Option String) : String :=
  match s with
  | none => "Sem técnico"
  | some s =>
    if s = "" then "Sem técnico" else
    let res := resolver_tecnico s
    if h : res.1 = "canonico" ∧ res.2.isSome then res.2.get h.2
    else if res.1 = "armando" then "Sem técnico"
    else
      let t := String.mk (pyStrip s.data)
      if t = "" then "Sem técnico" else t

/-! ### The duration parser (`_parse_duracao_para_minutos`)

CPython arithmetic is modelled exactly: a `float` is an IEEE binary64
value (`PyFloat`: a representable rational, `inf`, `-inf` or `nan`),
decimal literals are converted by correct rounding to nearest with
ties to even (overflowing to `inf`, underflowing through the subnormal
range to zero), `float()` accepts `inf`/`infinity`/`nan` and PEP 515
digit-group underscores, multiplication re-rounds its exact result,
and `round` is the Python half-to-even rounding of the double's exact
rational value.  `round(inf)` raises `OverflowError` and `round(nan)`
raises `ValueError`; the parser returns `Option Int`, `none` modelling
an exception the function does not catch. -/

def natOfDigits (ds : List Char) : Nat :=
  ds.foldl (fun n c => n * 10 + (c.toNat - 48)) 0

def spanDigits (cs : List Char) : List Char × List Char :=
  (cs.takeWhile Char.isDigit, cs.dropWhile Char.isDigit)

/-! Exact rational arithmetic through the normalising constructor
`mkRat`, so that every value the embedded code computes can be evaluated
by the kernel. -/

def ratAdd (a b : Rat) : Rat := mkRat (a.num * b.den + b.num * a.den) (a.den * b.den)

def ratSub (a b : Rat) : Rat := mkRat (a.num * b.den - b.num * a.den) (a.den * b.den)

def ratMul (a b : Rat) : Rat := mkRat (a.num * b.num) (a.den * b.den)

def ratNeg (a : Rat) : Rat := mkRat (-a.num) a.den

def intToRat (n : Int) : Rat := mkRat n 1

def ratAbs (q : Rat) : Rat := if q.blt 0 then ratNeg q else q

/-- Boolean `a ≤ b` on `Rat`. -/
def ratLeB (a b : Rat) : Bool := !(Rat.blt b a)

/-- Python `round`: round half to even, as an `Int`. -/
def roundHalfEven (q : Rat) : Int :=
  let f := q.floor
  let frac := ratSub q (intToRat f)
  if frac.blt (mkRat 1 2) then f
  else if (mkRat 1 2).blt frac then f + 1
  else if f % 2 = 0 then f else f + 1

/-! IEEE binary64. -/

inductive PyFloat where
  | finite (q : Rat)
  | inf
  | neginf
  | nan
deriving DecidableEq

def bitLenAux : Nat → Nat → Nat
  | 0, _ => 0
  | fuel + 1, n => if n = 0 then 0 else bitLenAux fuel (n / 2) + 1

/-- The number of binary digits of `n`. -/
def bitLen (n : Nat) : Nat := bitLenAux n n

/-- Round `n / d` (`d ≠ 0`) to the nearest integer, ties to even. -/
def rndHalfEvenDiv (n d : Nat) : Nat :=
  let q := n / d
  let r := n % d
  if 2 * r < d then q
  else if d < 2 * r then q + 1
  else if q % 2 = 0 then q else q + 1

/-- `n / d ≥ 2 ^ j`. -/
def gePow2 (n d : Nat) (j : Int) : Bool :=
  if 0 ≤ j then decide (d * 2 ^ j.toNat ≤ n) else decide (d ≤ n * 2 ^ (-j).toNat)

/-- `⌊log₂ (n / d)⌋` for positive `n / d`. -/
def floorLog2 (n d : Nat) : Int :=
  let b : Int := (bitLen n : Int) - (bitLen d : Int)
  if gePow2 n d b then b else b - 1

/-- Round the positive rational `n / d` to the nearest IEEE binary64
value: 53 significant bits for normal values, a fixed point of
`2 ^ (-1074)` in the subnormal range, ties to even, overflow to
`inf`. -/
def roundB64Pos (n d : Nat) : PyFloat :=
  let e := floorLog2 n d
  let sigma : Int := if e < -1022 then 1074 else 52 - e
  let m := if 0 ≤ sigma then rndHalfEvenDiv (n * 2 ^ sigma.toNat) d
           else rndHalfEvenDiv n (d * 2 ^ (-sigma).toNat)
  let v : Rat := if 0 ≤ sigma then mkRat (m : Int) (2 ^ sigma.toNat)
                 else intToRat (Int.ofNat (m * 2 ^ (-sigma).toNat))
  if ratLeB (intToRat (Int.ofNat (2 ^ 1024))) v then .inf else .finite v

/-- Round an exact rational to the nearest IEEE binary64 value. -/
def roundB64 (q : Rat) : PyFloat :=
  if q.num = 0 then .finite 0
  else if q.num < 0 then
    match roundB64Pos q.num.natAbs q.den with
    | .inf => .neginf
    | .finite v => .finite (ratNeg v)
    | f => f
  else roundB64Pos q.num.natAbs q.den

/-- Double multiplication by the exact constant 60 (`horas * 60`):
the exact product, re-rounded to binary64. -/
def pyMul60 : PyFloat → PyFloat
  | .finite q => roundB64 (ratMul q (intToRat 60))
  | .inf => .inf
  | .neginf => .neginf
  | .nan => .nan

/-- Continue a digit group of a `float()` literal: digits with single
underscores between digits (PEP 515); stops before anything else, so a
misplaced underscore is left in the remainder for the caller to
reject. -/
def dgCont : List Char → List Char × List Char
  | [] => ([], [])
  | [c] => if c.isDigit then ([c], []) else ([], [c])
  | c :: d :: rest =>
    if c.isDigit then
      let (g, r) := dgCont (d :: rest)
      (c :: g, r)
    else if c = '_' ∧ d.isDigit then
      let (g, r) := dgCont rest
      (d :: g, r)
    else ([], c :: d :: rest)

/-- A digit group must begin with a digit. -/
def digitGroup (cs : List Char) : List Char × List Char :=
  match cs with
  | c :: _ => if c.isDigit then dgCont cs else ([], cs)
  | [] => ([], [])

/-- The exponent part of a float literal: `(e|E)[+-]?digits`, which
must consume the rest of the input. -/
def parseExpPart : List Char → Option Int
  | [] => some 0
  | c :: r =>
    if c = 'e' ∨ c = 'E' then
      let (sgn, r1) : Int × List Char :=
        match r with
        | '+' :: rr => (1, rr)
        | '-' :: rr => (-1, rr)
        | rr => (1, rr)
      let (ds, r2) := digitGroup r1
      if ds.isEmpty then none
      else if r2.isEmpty then some (sgn * (natOfDigits ds : Int))
      else none
    else none

/-- Python `float(...)` on a string: strip, optional sign, then
`inf`/`infinity`/`nan` (case-insensitive) or a decimal literal whose
exact value is rounded to the nearest binary64; `none` models
`ValueError`. -/
def pyFloatOfChars (cs0 : List Char) : Option PyFloat :=
  let cs := pyStrip cs0
  if cs.isEmpty then none else
  let (sgnPos, cs1) : Bool × List Char :=
    match cs with
    | '+' :: r => (true, r)
    | '-' :: r => (false, r)
    | r => (true, r)
  let low := cs1.map Char.toLower
  if low = "inf".data ∨ low = "infinity".data then
    some (if sgnPos then .inf else .neginf)
  else if low = "nan".data then some .nan
  else
    let (ip, cs2) := digitGroup cs1
    let (fp, cs3) : Option (List Char) × List Char :=
      match cs2 with
      | '.' :: r =>
        let (fs, r2) := digitGroup r
        (some fs, r2)
      | r => (none, r)
    let digitsOk :=
      match fp with
      | none => !ip.isEmpty
      | some fs => !ip.isEmpty ∨ !fs.isEmpty
    if digitsOk then
      match parseExpPart cs3 with
      | none => none
      | some e =>
        let mant : Rat := ratAdd (intToRat (natOfDigits ip))
          (match fp with
           | some fs => mkRat (natOfDigits fs) ((10 : Nat) ^ fs.length)
           | none => mkRat 0 1)
        let scaled : Rat :=
          if 0 ≤ e then ratMul mant (intToRat (Int.ofNat (10 ^ e.toNat)))
          else ratMul mant (mkRat 1 ((10 : Nat) ^ (-e).toNat))
        some (roundB64 (if sgnPos then scaled else ratNeg scaled))
    else none

/-- Try to match `([0-9]+(?:[.,][0-9]+)?)\s*h` starting exactly at the
head of the list; return the captured group. -/
def tryHorasAt (cs : List Char) : Option (List Char) :=
  let (ds, rest1) := spanDigits cs
  if ds.isEmpty then none else
  let (frac, rest2) : List Char × List Char :=
    match rest1 with
    | c :: r =>
      if c = '.' ∨ c = ',' then
        let (fs, r2) := spanDigits r
        if fs.isEmpty then (([] : List Char), rest1) else (c :: fs, r2)
      else ([], rest1)
    | [] => ([], rest1)
  let rest3 := rest2.dropWhile pyIsSpace
  match rest3 with
  | 'h' :: _ => some (ds ++ frac)
  | _ => none

/-- `re.search(r"([0-9]+(?:[.,][0-9]+)?)\s*h", s)`: leftmost match. -/
def searchHoras : List Char → Option (List Char)
  | [] => none
  | c :: rest =>
    if c.isDigit then
      match tryHorasAt (c :: rest) with
      | some g => some g
      | none => searchHoras rest
    else searchHoras rest

def tryMinutosAt (cs : List Char) : Option Int :=
  let (ds, rest1) := spanDigits cs
  if ds.isEmpty then none else
  let rest2 := rest1.dropWhile pyIsSpace
  match rest2 with
  | 'm' :: _ => some (natOfDigits ds : Int)
  | _ => none

/-- `re.search(r"([0-9]+)\s*m", s)`: leftmost match. -/
def searchMinutos : List Char → Option Int
  | [] => none
  | c :: rest =>
    if c.isDigit then
      match tryMinutosAt (c :: rest) with
      | some n => some n
      | none => searchMinutos rest
    else searchMinutos rest

/-- The stripped text the parser works on. -/
def duracaoStripped (valor : String) : List Char :=
  pyStrip valor.data

/-- `s.lower()` as used for the marker search. -/
def duracaoLower (valor : String) : List Char :=
  (duracaoStripped valor).map Char.toLower

/-- `s.replace(",", ".")` as used for the numeric branches. -/
def duracaoNormalizado (valor : String) : List Char :=
  (duracaoStripped valor).map (fun c => if c = ',' then '.' else c)

/-- `horas_float`: the double of the captured hour group with `,`
replaced by `.` (the digits-only group always converts, so the
`except ValueError` around it never fires). -/
def horasFloatRe (valor : String) : PyFloat :=
  match searchHoras (duracaoLower valor) with
  | some g =>
    (pyFloatOfChars (g.map (fun c => if c = ',' then '.' else c))).getD (.finite 0)
  | none => .finite 0

/-- `_parse_duracao_para_minutos`: interpret hours/minutes in several
formats and return whole minutes.  `none` models an exception the
function does not catch: `round` of an infinite double raises
`OverflowError` everywhere, and `round(nan)` raises `ValueError`,
which only the final integer branch catches. -/
def parse_duracao_para_minutos (valor : String) : Option Int :=
  let s := duracaoStripped valor
  if s.isEmpty then some 0 else
  if (searchHoras (duracaoLower valor)).isSome
      ∨ (searchMinutos (duracaoLower valor)).isSome then
    match pyMul60 (horasFloatRe valor) with
    | .finite q =>
      some (max 0 (roundHalfEven q
        + max 0 ((searchMinutos (duracaoLower valor)).getD 0)))
    | _ => none
  else
    let normalizado := duracaoNormalizado valor
    if '.' ∈ normalizado then
      match pyFloatOfChars normalizado with
      | none => some 0
      | some f =>
        if (match f with
            | .finite q => ratLeB (ratAbs q) (intToRat 24)
            | _ => false) then
          match pyMul60 f with
          | .finite q => some (max 0 (roundHalfEven q))
          | _ => none
        else
          match f with
          | .finite q => some (max 0 (roundHalfEven q))
          | _ => none
    else
      match pyFloatOfChars normalizado with
      | none => some 0
      | some (.finite q) => some (max 0 (roundHalfEven q))
      | some .nan => some 0
      | some _ => none

/-- `_parse_tempo_para_minutos`: legacy-compatibility wrapper around
the duration parser.  At sheet level the model collapses the parser's
uncaught overflow exception (which would abort the whole import) to 0
minutes. -/
def parse_tempo_para_minutos (valor : String) : Int :=
  (parse_duracao_para_minutos valor).getD 0

/-! ### C4: the duration parser (corrected) -/

/-- C4 (amended).  Whenever the parser returns, the value is a
non-negative number of minutes.  With an hour or minute marker the
result is the Python rounding of the binary64 product `hours * 60`
plus the non-negative marked minutes — unless that product is
infinite, in which case `round` raises and the parser does not return.
Without markers, a parseable value with a decimal point is treated as
hours when its magnitude is at most 24 (the binary64 product rounded)
and rounded directly when larger; a parseable value without a decimal
point is rounded as minutes; unparseable text yields 0; the literal
`nan` yields 0 (its `ValueError` is caught there), while an infinite
value makes `round` raise an uncaught `OverflowError`. -/
theorem parse_duracao_branches_and_overflow (v : String) :
    (∀ n, parse_duracao_para_minutos v = some n → 0 ≤ n)
    ∧ ((searchHoras (duracaoLower v)).isSome
        ∨ (searchMinutos (duracaoLower v)).isSome →
        (∀ q, pyMul60 (horasFloatRe v) = .finite q →
          parse_duracao_para_minutos v
            = some (max 0 (roundHalfEven q
                + max 0 ((searchMinutos (duracaoLower v)).getD 0))))
        ∧ (pyMul60 (horasFloatRe v) = .inf →
          parse_duracao_para_minutos v = none))
    ∧ (¬ ((searchHoras (duracaoLower v)).isSome
          ∨ (searchMinutos (duracaoLower v)).isSome) →
        (∀ q, pyFloatOfChars (duracaoNormalizado v) = some (.finite q) →
          ('.' ∈ duracaoNormalizado v →
            (ratLeB (ratAbs q) (intToRat 24) = true →
              ∀ q2, pyMul60 (.finite q) = .finite q2 →
                parse_duracao_para_minutos v
                  = some (max 0 (roundHalfEven q2)))
            ∧ (ratLeB (ratAbs q) (intToRat 24) = false →
              parse_duracao_para_minutos v
                = some (max 0 (roundHalfEven q))))
          ∧ ('.' ∉ duracaoNormalizado v →
            parse_duracao_para_minutos v = some (max 0 (roundHalfEven q))))
        ∧ (pyFloatOfChars (duracaoNormalizado v) = none →
            parse_duracao_para_minutos v = some 0)
        ∧ ('.' ∉ duracaoNormalizado v →
            pyFloatOfChars (duracaoNormalizado v) = some .nan →
            parse_duracao_para_minutos v = some 0)
        ∧ ('.' ∉ duracaoNormalizado v →
            pyFloatOfChars (duracaoNormalizado v) = some .inf →
            parse_duracao_para_minutos v = none)) := by
  have hnn : ∀ n, parse_duracao_para_minutos v = some n → 0 ≤ n := by
    intro n h
    simp only [parse_duracao_para_minutos] at h
    repeat' split at h
    all_goals first
      | (injection h with h1; omega)
      | exact absurd h (by simp)
  refine ⟨hnn, ?_, ?_⟩
  · intro hmk
    by_cases hE : (duracaoStripped v).isEmpty
    · exfalso
      have hlow : duracaoLower v = [] := by
        unfold duracaoLower
        rw [List.isEmpty_iff.1 hE]
        rfl
      rw [hlow] at hmk
      simp [searchHoras, searchMinutos] at hmk
    constructor
    · intro q hq
      simp only [parse_duracao_para_minutos]
      rw [if_neg (by simpa using hE), if_pos hmk, hq]
    · intro hq
      simp only [parse_duracao_para_minutos]
      rw [if_neg (by simpa using hE), if_pos hmk, hq]
  · intro hmk
    by_cases hE : (duracaoStripped v).isEmpty
    · have hnorm : duracaoNormalizado v = [] := by
        unfold duracaoNormalizado
        rw [List.isEmpty_iff.1 hE]
        rfl
      have hpf : pyFloatOfChars (duracaoNormalizado v) = none := by
        rw [hnorm]
        rfl
      refine ⟨?_, ?_, ?_, ?_⟩
      · intro q hq
        rw [hpf] at hq
        exact absurd hq (by simp)
      · intro h1
        simp only [parse_duracao_para_minutos]
        rw [if_pos hE]
      · intro h1 hq
        rw [hpf] at hq
        exact absurd hq (by simp)
      · intro h1 hq
        rw [hpf] at hq
        exact absurd hq (by simp)
    · refine ⟨?_, ?_, ?_, ?_⟩
      · intro q hq
        constructor
        · intro hdot
          constructor
          · intro hle q2 hq2
            simp only [parse_duracao_para_minutos]
            rw [if_neg (by simpa using hE), if_neg hmk, if_pos hdot, hq]
            dsimp only
            rw [hle, if_pos rfl, hq2]
          · intro hle
            simp only [parse_duracao_para_minutos]
            rw [if_neg (by simpa using hE), if_neg hmk, if_pos hdot, hq]
            dsimp only
            rw [hle, if_neg (by simp)]
        · intro hdot
          simp only [parse_duracao_para_minutos]
          rw [if_neg (by simpa using hE), if_neg hmk, if_neg hdot, hq]
      · intro hq
        simp only [parse_duracao_para_minutos]
        rw [if_neg (by simpa using hE), if_neg hmk]
        by_cases hdot : '.' ∈ duracaoNormalizado v
        · rw [if_pos hdot, hq]
        · rw [if_neg hdot, hq]
      · intro hdot hq
        simp only [parse_duracao_para_minutos]
        rw [if_neg (by simpa using hE), if_neg hmk, if_neg hdot, hq]
      · intro hdot hq
        simp only [parse_duracao_para_minutos]
        rw [if_neg (by simpa using hE), if_neg hmk, if_neg hdot, hq]

/-- C4 counterexample to the claimed totality and exact-arithmetic
branch rules: `float("inf")` and `float("1e400")` are infinite, so
`round` raises an uncaught `OverflowError` — the source raises instead
of returning 0; `"1_000"` is a valid CPython float literal and parses
to 1000 minutes; and for `"1.025"` and `"2.075"` the binary64 product
differs from the exact product, so the parser returns 61 and 125 where
the exact-arithmetic reading of `round(hours * 60)` gives 62 and
124. -/
theorem parse_duracao_counterexample :
    parse_duracao_para_minutos "inf" = none
    ∧ parse_duracao_para_minutos "1e400" = none
    ∧ parse_duracao_para_minutos "1_000" = some 1000
    ∧ parse_duracao_para_minutos "1.025" = some 61
    ∧ max 0 (roundHalfEven (ratMul (mkRat 1025 1000) (intToRat 60))) = 62
    ∧ parse_duracao_para_minutos "2.075" = some 125
    ∧ max 0 (roundHalfEven (ratMul (mkRat 2075 1000) (intToRat 60))) = 124 :=
  ⟨by decide, by decide, by decide, by decide, by decide, by decide, by decide⟩

/-- Witness for C4: the marker, decimal-hours, underscored-integer,
malformed and `nan` branches at concrete inputs, and the raising input
`"inf"`. -/
theorem parse_duracao_branches_and_overflow_witness :
    parse_duracao_para_minutos "1,5h 30m" = some 120
    ∧ parse_duracao_para_minutos "7,5" = some 450
    ∧ parse_duracao_para_minutos "1_000" = some 1000
    ∧ parse_duracao_para_minutos "abc" = some 0
    ∧ parse_duracao_para_minutos "nan" = some 0
    ∧ parse_duracao_para_minutos "inf" = none := by
  refine ⟨?_, ?_, ?_, ?_, ?_, ?_⟩
  · exact ((parse_duracao_branches_and_overflow "1,5h 30m").2.1 (by decide)).1
      (intToRat 90) (by decide)
  · exact ((((parse_duracao_branches_and_overflow "7,5").2.2 (by decide)).1
      (mkRat 15 2) (by decide)).1 (by decide)).1 (by decide)
      (intToRat 450) (by decide)
  · exact (((parse_duracao_branches_and_overflow "1_000").2.2 (by decide)).1
      (intToRat 1000) (by decide)).2 (by decide)
  · exact ((parse_duracao_branches_and_overflow "abc").2.2 (by decide)).2.1
      (by decide)
  · exact ((parse_duracao_branches_and_overflow "nan").2.2 (by decide)).2.2.1
      (by decide) (by decide)
  · exact ((parse_duracao_branches_and_overflow "inf").2.2 (by decide)).2.2.2
      (by decide) (by decide)

/-! ### The timings ledger

In memory the ledger is `{year: {company: record}}` where a record is
`{"meses": {month: minutes}, "extra_mensal": int, "apagado": bool,
"por_tecnico": {technician: {month: minutes}}}`.  Dictionaries are
association lists; month keys are `Int` (the Python code writes
`meses[int(mes)]` and `por_tecnico[t][str(mes)]`, and `str` is injective
on ints, so both are modelled with the integer key). -/

structure EmpresaRec where
  meses : List (Int × Int)
  extra_mensal : Int
  apagado : Bool
  por_tecnico : List (String × List (Int × Int))
deriving DecidableEq

/-- `{"meses": {}, "extra_mensal": 0, "apagado": False, "por_tecnico": {}}` -/
def defaultEmpresaRec : EmpresaRec :=
  { meses := [], extra_mensal := 0, apagado := false, por_tecnico := [] }

abbrev AnoDict := List (String × EmpresaRec)

abbrev TimingsDados := List (String × AnoDict)

/-- `_total_minutos_timings`: every month value runs through
`_parse_duracao_para_minutos` (the stored values are ints, which Python
stringifies before parsing — an integer string never raises, so the
default 0 is dead), and the monthly extra counts twelve times. -/
def total_minutos_timings (data : TimingsDados) : Int :=
  (data.map (fun ano =>
    (ano.2.map (fun empresa =>
      (empresa.2.meses.map
        (fun m => (parse_duracao_para_minutos (toString m.2)).getD 0)).sum
        + empresa.2.extra_mensal * 12)).sum)).sum

/-- `_guardar_timings_para_ficheiro`.  The on-disk file is modelled as
`Option TimingsDados` (`none` = missing or unreadable); the temp-file
write plus `os.replace` is modelled as an atomic replacement of the disk
contents, and the returned `Bool` is the success flag given to the
caller.  The comparison `novo_total < total_anterior * 0.5` is exact
(`2 * novo < anterior` over `Int`). -/
def guardar_timings_para_ficheiro (memory : TimingsDados)
    (disk : Option TimingsDados) : Bool × Option TimingsDados :=
  let novoTotal := total_minutos_timings memory
  let totalAnterior : Option Int := disk.map total_minutos_timings
  match totalAnterior with
  | some t =>
    if t > 0 ∧ 2 * novoTotal < t then (false, disk)
    else (true, some memory)
  | none => (true, some memory)

/-- `limpar_timings`: requires the literal confirmation `"APAGAR"`
(otherwise HTTP 400, modelled as `none`), clears the in-memory ledger
and persists.  The result is the new in-memory ledger together with the
outcome of the save. -/
def limpar_timings (confirmLimpar : String) (_memory : TimingsDados)
    (disk : Option TimingsDados) :
    Option (TimingsDados × (Bool × Option TimingsDados)) :=
  if confirmLimpar ≠ "APAGAR" then none
  else
    let cleared : TimingsDados := []
    some (cleared, guardar_timings_para_ficheiro cleared disk)

/-- `_obter_ano_dict`: `timings_dados.setdefault(str(ano), {})`. -/
def obter_ano_dict (td : TimingsDados) (ano : Int) : TimingsDados × AnoDict :=
  match lookupA td (toString ano) with
  | some d => (td, d)
  | none => (td ++ [(toString ano, [])], [])

/-- `_adicionar_tempo_empresa`: add minutes to a company for a given
year and month, reactivating the record and updating the per-technician
breakdown. -/
def adicionar_tempo_empresa (ano : Int) (mes : Int) (empresa : String)
    (minutos : Int) (tecnico : Option String) (td : TimingsDados) :
    TimingsDados :=
  if minutos ≤ 0 then td else
  let p := obter_ano_dict td ano
  let anoDict := p.2
  let empDict := (lookupA anoDict empresa).getD defaultEmpresaRec
  let empDict := { empDict with apagado := false }
  let atual := (lookupA empDict.meses mes).getD 0
  let empDict := { empDict with meses := setA empDict.meses mes (atual + minutos) }
  let empDict :=
    match tecnico with
    | some t =>
      if t = "" then empDict else
      let tecnicoNorm := canonical_tecnico_nome (some t)
      let tecRegistos := (lookupA empDict.por_tecnico tecnicoNorm).getD []
      let atualTec := (lookupA tecRegistos mes).getD 0
      let novoPorTec :=
        setA empDict.por_tecnico tecnicoNorm (setA tecRegistos mes (atualTec + minutos))
      { empDict with por_tecnico := novoPorTec }
    | none => empDict
  setA p.1 (toString ano) (setA anoDict empresa empDict)

/-- `excluir_timing_empresa` (ledger part): mark a company as deleted
for a year, creating an empty deleted record when the company has no
entry for that year. -/
def excluir_timing_empresa (ano : Int) (empresa : String)
    (td : TimingsDados) : TimingsDados :=
  let anoDict := (lookupA td (toString ano)).getD []
  let novoRec : EmpresaRec :=
    match lookupA anoDict empresa with
    | none =>
      { meses := [], extra_mensal := 0, apagado := true, por_tecnico := [] }
    | some r => { r with apagado := true }
  setA td (toString ano) (setA anoDict empresa novoRec)

/-! ### The import pipeline (`_importar_excel_timings`, `importar_timings`)

A sheet scanner produces raw records `(empresa, tipo, canonico,
minutos)`; `_importar_excel_timings` keeps those with positive minutes
and a non-empty strong company key, adding the normalised key.
`importar_timings` then deduplicates across the whole batch, zeroes the
target month for every touched company and replays the unique facts. -/

/-- One record as produced by the sheet scanners (`registos_sheet` or a
`totais_sheet` entry, the latter with `tipo = "resumo"`). -/
structure RawRegisto where
  empresa : String
  tipo : String
  canonico : Option String
  minutos : Int
deriving DecidableEq

/-- One element of `registos_validos` in `_importar_excel_timings`. -/
structure Registo where
  empresa : String
  empresa_norm : String
  tipo : String
  canonico : Option String
  minutos : Int
deriving DecidableEq

/-- The two aggregation loops of `_importar_excel_timings`: drop
non-positive minutes and empty normalised company keys. -/
def registos_validos (raws : List RawRegisto) : List Registo :=
  raws.filterMap (fun r =>
    if r.minutos ≤ 0 then none else
    let n := norm_empresa_forte r.empresa
    if n = "" then none else
    some ⟨r.empresa, n, r.tipo, r.canonico, r.minutos⟩)

/-- `d[k] = d.get(k, 0) + v` on a counter dict. -/
def bumpA (l : List (String × Int)) (k : String) (v : Int) : List (String × Int) :=
  setA l k ((lookupA l k).getD 0 + v)

/-- `d.setdefault(k, v)`. -/
def setdefaultA (l : List (String × String)) (k v : String) :
    List (String × String) :=
  match lookupA l k with
  | some _ => l
  | none => l ++ [(k, v)]

/-- The technician component of the dedup identity
(`tecnico_chave` in `importar_timings`); `none` models the `continue`
taken when a `canonico`-typed record carries no canonical name. -/
def tecnico_chave (tipo : String) (canonico : Option String) : Option String :=
  if tipo = "canonico" then
    match canonico with
    | none => none
    | some c => if c = "" then none else some (norm_nome_forte c)
  else if tipo = "armando" then some "__ARMANDO__"
  else some "__RESUMO__"

/-- The state threaded through the dedup loop of `importar_timings`. -/
structure DedupState where
  seen : List (String × String × Int × Int)
  unicos : List Registo
  duplicados_por_empresa : List (String × Int)
  total_minutos_deduplicados : Int
  empresa_display_por_norm : List (String × String)
  empresas_afetadas_norm : List String
deriving DecidableEq

def dedupInit : DedupState :=
  { seen := [], unicos := [], duplicados_por_empresa := [],
    total_minutos_deduplicados := 0, empresa_display_por_norm := [],
    empresas_afetadas_norm := [] }

/-- One iteration of the dedup loop (lines 1729-1763 of `timings.py`). -/
def dedup_step (mes : Int) (st : DedupState) (r : Registo) : DedupState :=
  if r.minutos ≤ 0 then st else
  if r.empresa_norm = "" then st else
  let empresaDisplay := if r.empresa = "" then r.empresa_norm else r.empresa
  let displayMap := setdefaultA st.empresa_display_por_norm r.empresa_norm empresaDisplay
  match tecnico_chave r.tipo r.canonico with
  | none => { st with empresa_display_por_norm := displayMap }
  | some tchave =>
    let chave := (r.empresa_norm, tchave, mes, r.minutos)
    if chave ∈ st.seen then
      let empresaRepr := (lookupA displayMap r.empresa_norm).getD empresaDisplay
      { st with
        empresa_display_por_norm := displayMap
        duplicados_por_empresa := bumpA st.duplicados_por_empresa empresaRepr r.minutos
        total_minutos_deduplicados := st.total_minutos_deduplicados + r.minutos }
    else
      { st with
        empresa_display_por_norm := displayMap
        seen := st.seen ++ [chave]
        unicos := st.unicos ++ [r]
        empresas_afetadas_norm :=
          if r.empresa_norm ∈ st.empresas_afetadas_norm then
            st.empresas_afetadas_norm
          else st.empresas_afetadas_norm ++ [r.empresa_norm] }

/-- The whole dedup pass over the batch. -/
def dedup_batch (mes : Int) (rs : List Registo) : DedupState :=
  rs.foldl (dedup_step mes) dedupInit

/-- `_encontrar_empresa_existente_por_norm`. -/
def encontrar_empresa_existente_por_norm (anoDict : AnoDict)
    (empresaNorm : String) : Option String :=
  (keyList anoDict).find? (fun nome => norm_empresa_forte nome == empresaNorm)

/-- The `empresa_nome_para_inserir` map (lines 1775-1784), in the
iteration order of the affected-norm set. -/
def empresa_nome_para_inserir (anoDict : AnoDict) (st : DedupState) :
    List (String × String) :=
  st.empresas_afetadas_norm.map (fun n =>
    match encontrar_empresa_existente_por_norm anoDict n with
    | some existente => (n, existente)
    | none => (n, (lookupA st.empresa_display_por_norm n).getD n))

/-- The month-replacement step for one company (lines 1786-1802):
remove the month key from the aggregate map and write an explicit 0,
and remove it from every per-technician map. -/
def zero_mes_empresa (mes : Int) (anoDict : AnoDict) (empresaNome : String) :
    AnoDict :=
  match lookupA anoDict empresaNome with
  | none => anoDict
  | some r =>
    let r := { r with meses := setA (popA r.meses mes) mes 0 }
    let r := { r with por_tecnico := r.por_tecnico.map (fun t => (t.1, popA t.2 mes)) }
    setA anoDict empresaNome r

def zero_phase (mes : Int) (mapa : List (String × String)) (anoDict : AnoDict) :
    AnoDict :=
  mapa.foldl (fun d p => zero_mes_empresa mes d p.2) anoDict

/-! Technician resolution in the apply phase
(`_tecnico_inferido_empresa` plus lines 1812-1825). -/

/-- A client-registry entry (`estado["clientes"]`), with the fields the
timings module reads. -/
structure Cliente where
  nome : Option String
  cliente : Option String
  empresa : Option String
  designacao : Option String
  tecnico : Option String
  carteira : Option String
deriving DecidableEq

/-- Python `or` on optional strings: `None` and `""` are falsy. -/
def orFalsy (a b : Option String) : Option String :=
  match a with
  | some s => if s = "" then b else some s
  | none => b

/-- `cli.get("nome") or cli.get("cliente") or cli.get("empresa") or
cli.get("designacao")`. -/
def nomeCliente (c : Cliente) : Option String :=
  orFalsy c.nome (orFalsy c.cliente (orFalsy c.empresa c.designacao))

/-- The value returned for a matching client: the canonical name when
the recorded technician resolves, otherwise the stripped raw name. -/
def tecnicoInferidoDoCliente (traw : String) : Option String :=
  match resolver_tecnico traw with
  | ("canonico", some c) =>
    if c = "" then
      let s := String.mk (pyStrip traw.data)
      if s = "" then none else some s
    else some c
  | _ =>
    let s := String.mk (pyStrip traw.data)
    if s = "" then none else some s

/-- The client scan of `_tecnico_inferido_empresa`: first client whose
normalised name equals the target; a match without a recorded
technician returns `none` immediately. -/
def tecnicoInferidoScan : List Cliente → String → Option String
  | [], _ => none
  | cli :: rest, alvo =>
    match nomeCliente cli with
    | none => tecnicoInferidoScan rest alvo
    | some nomeCli =>
      if norm_empresa_forte nomeCli ≠ alvo then tecnicoInferidoScan rest alvo
      else
        match orFalsy cli.tecnico cli.carteira with
        | none => none
        | some traw => tecnicoInferidoDoCliente traw

/-- `_tecnico_inferido_empresa`. -/
def tecnico_inferido_empresa (clientes : List Cliente) (empresaNorm : String) :
    Option String :=
  if empresaNorm = "" then none else
  let alvoNorm := norm_empresa_forte empresaNorm
  if alvoNorm = "" then none else
  tecnicoInferidoScan clientes alvoNorm

/-- Lines 1812-1825: the technician finally attributed to a fact, and
whether the fact lands in the `armando_sem_inferido` report. -/
def tecnico_final_registo (clientes : List Cliente) (r : Registo) :
    Option String × Bool :=
  if r.tipo = "canonico" then (r.canonico, false)
  else if r.tipo = "armando" then
    match tecnico_inferido_empresa clientes r.empresa_norm with
    | some inferido => (some inferido, false)
    | none => (none, true)
  else (none, false)

/-- The apply loop (lines 1804-1828): write every unique fact through
`_adicionar_tempo_empresa`, accumulating the `armando_sem_inferido`
report. -/
def aplicar_registos (ano mes : Int) (clientes : List Cliente)
    (mapa : List (String × String)) (us : List Registo)
    (td : TimingsDados) (armandoSemInferido : List (String × Int)) :
    TimingsDados × List (String × Int) :=
  us.foldl (fun acc r =>
    let empresaDisplay := if r.empresa = "" then r.empresa_norm else r.empresa
    let empresaNome := (lookupA mapa r.empresa_norm).getD empresaDisplay
    let tf := tecnico_final_registo clientes r
    let relato := if tf.2 then bumpA acc.2 empresaDisplay r.minutos else acc.2
    (adicionar_tempo_empresa ano mes empresaNome r.minutos tf.1 acc.1, relato))
    (td, armandoSemInferido)

/-- The ledger-changing part of `importar_timings` for one upload:
validate, deduplicate, and unless nothing at all was collected (the
early redirect), zero the month for every touched company and replay
the unique facts.  `outrosRelatos` abstracts whether the sheet scanners
produced any invalid-technician / ignored / ignored-summary entries
(part of the early-redirect condition; `armando_sem_inferido` is always
empty at that point).  Returns the new ledger and the
`armando_sem_inferido` report. -/
def importar_timings_apply (ano mes : Int) (clientes : List Cliente)
    (outrosRelatos : Bool) (raws : List RawRegisto) (td : TimingsDados) :
    TimingsDados × List (String × Int) :=
  let rs := registos_validos raws
  let st := dedup_batch mes rs
  if st.unicos = [] ∧ st.duplicados_por_empresa = [] ∧ outrosRelatos = false then
    (td, [])
  else
    let p := obter_ano_dict td ano
    let mapa := empresa_nome_para_inserir p.2 st
    let anoDict2 := zero_phase mes mapa p.2
    let td2 := setA p.1 (toString ano) anoDict2
    aplicar_registos ano mes clientes mapa st.unicos td2 []

/-! ### Proof infrastructure for the import pipeline

The td-level functions above are decomposed into per-record and
per-company operations; the bridging lemmas prove the decompositions
equal to the faithful definitions. -/

section ImportProofs

variable (mes : Int) (clientes : List Cliente)

/-- The technician finally passed to `_adicionar_tempo_empresa`. -/
def canonTf (r : Registo) : Option String :=
  (tecnico_final_registo clientes r).1

def displayR (r : Registo) : String :=
  if r.empresa = "" then r.empresa_norm else r.empresa

def nomeFor (mapa : List (String × String)) (r : Registo) : String :=
  (lookupA mapa r.empresa_norm).getD (displayR r)

/-- The per-technician part of one `_adicionar_tempo_empresa` call. -/
def techUpd (pt : List (String × List (Int × Int))) (r : Registo) :
    List (String × List (Int × Int)) :=
  match canonTf clientes r with
  | some t =>
    if t = "" then pt else
    let c := canonical_tecnico_nome (some t)
    let m := (lookupA pt c).getD []
    setA pt c (setA m mes ((lookupA m mes).getD 0 + r.minutos))
  | none => pt

/-- The record-level effect of one `_adicionar_tempo_empresa` call. -/
def addRec (r : Registo) (rec : EmpresaRec) : EmpresaRec :=
  { meses := setA rec.meses mes ((lookupA rec.meses mes).getD 0 + r.minutos)
    extra_mensal := rec.extra_mensal
    apagado := false
    por_tecnico := techUpd mes clientes rec.por_tecnico r }

def addRecs (us : List Registo) (rec : EmpresaRec) : EmpresaRec :=
  us.foldl (fun acc r => addRec mes clientes r acc) rec

/-- The year-slice effect of one `_adicionar_tempo_empresa` call. -/
def addAno (mapa : List (String × String)) (d : AnoDict) (r : Registo) :
    AnoDict :=
  setA d (nomeFor mapa r)
    (addRec mes clientes r ((lookupA d (nomeFor mapa r)).getD defaultEmpresaRec))

def addAllAno (mapa : List (String × String)) (us : List Registo)
    (d : AnoDict) : AnoDict :=
  us.foldl (addAno mes clientes mapa) d

/-- The record-level effect of the month-replacement step. -/
def zeroRec (r : EmpresaRec) : EmpresaRec :=
  { r with
    meses := setA (popA r.meses mes) mes 0
    por_tecnico := r.por_tecnico.map (fun t => (t.1, popA t.2 mes)) }

def zeroTech (pt : List (String × List (Int × Int))) :
    List (String × List (Int × Int)) :=
  pt.map (fun t => (t.1, popA t.2 mes))

/-- The whole year-slice effect of one import after dedup. -/
def applyAno (st : DedupState) (d : AnoDict) : AnoDict :=
  addAllAno mes clientes (empresa_nome_para_inserir d st) st.unicos
    (zero_phase mes (empresa_nome_para_inserir d st) d)

theorem zero_mes_empresa_eq (d : AnoDict) (nome : String) :
    zero_mes_empresa mes d nome =
      match lookupA d nome with
      | none => d
      | some r => setA d nome (zeroRec mes r) := by
  unfold zero_mes_empresa zeroRec
  cases lookupA d nome <;> rfl

theorem zeroRec_idem (r : EmpresaRec) :
    zeroRec mes (zeroRec mes r) = zeroRec mes r := by
  unfold zeroRec
  simp only [List.map_map]
  congr 1
  · rw [popA_setA_self, setA_of_lookup_none _ _ _ (lookupA_popA_self _ _),
      setA_of_lookup_none _ _ _ (lookupA_popA_self _ _), popA_popA]
  · apply List.map_congr_left
    intro t _
    simp [popA_popA]

theorem adicionar_bridge (ano : Int) (mapa : List (String × String))
    (r : Registo) (td : TimingsDados) (hpos : 0 < r.minutos)
    (hsome : (lookupA td (toString ano)).isSome) :
    adicionar_tempo_empresa ano mes (nomeFor mapa r) r.minutos
        (canonTf clientes r) td
      = setA td (toString ano)
          (addAno mes clientes mapa ((lookupA td (toString ano)).getD []) r) := by
  obtain ⟨d, hd⟩ := Option.isSome_iff_exists.1 hsome
  unfold adicionar_tempo_empresa obter_ano_dict addAno addRec techUpd
  rw [if_neg (by omega), hd]
  simp only [Option.getD_some]
  cases htf : canonTf clientes r with
  | none => rfl
  | some t =>
    by_cases ht : t = ""
    · simp [ht]
    · simp [ht]

theorem aplicar_bridge (ano : Int) (mapa : List (String × String)) :
    ∀ (us : List Registo) (td : TimingsDados) (relato : List (String × Int)),
      (∀ r ∈ us, 0 < r.minutos) → (lookupA td (toString ano)).isSome →
      (aplicar_registos ano mes clientes mapa us td relato).1
        = setA td (toString ano)
            (addAllAno mes clientes mapa us ((lookupA td (toString ano)).getD [])) := by
  intro us
  induction us with
  | nil =>
    intro td relato _ hsome
    obtain ⟨d, hd⟩ := Option.isSome_iff_exists.1 hsome
    simp only [aplicar_registos, List.foldl_nil, addAllAno, hd,
      Option.getD_some]
    exact (setA_lookup_self td _ d hd).symm
  | cons r rest ih =>
    intro td relato hpos hsome
    have hstep :
        adicionar_tempo_empresa ano mes (nomeFor mapa r) r.minutos
            (canonTf clientes r) td
          = setA td (toString ano)
              (addAno mes clientes mapa ((lookupA td (toString ano)).getD []) r) :=
      adicionar_bridge mes clientes ano mapa r td
        (hpos r (List.mem_cons_self _ _)) hsome
    simp only [aplicar_registos, List.foldl_cons] at ih ⊢
    simp only [nomeFor, displayR, canonTf] at hstep
    rw [hstep]
    rw [ih (setA td (toString ano)
          (addAno mes clientes mapa ((lookupA td (toString ano)).getD []) r))
        (if (tecnico_final_registo clientes r).2 = true then
          bumpA relato (if r.empresa = "" then r.empresa_norm else r.empresa)
            r.minutos
         else relato)
        (fun r' hr' => hpos r' (List.mem_cons_of_mem _ hr'))
        (by rw [lookupA_setA_self]; rfl)]
    rw [setA_setA, lookupA_setA_self]
    simp only [Option.getD_some, addAllAno, List.foldl_cons]

end ImportProofs

theorem mem_setA {l : List (κ' × β')} [DecidableEq κ'] {k : κ'} {v : β'}
    {q : κ' × β'} (h : q ∈ setA l k v) : q = (k, v) ∨ q ∈ l := by
  induction l with
  | nil => simpa [setA] using h
  | cons p t ih =>
    obtain ⟨k', v'⟩ := p
    by_cases h₀ : k' = k
    · simp only [setA, h₀, if_pos] at h
      rcases List.mem_cons.1 h with h | h
      · exact Or.inl h
      · exact Or.inr (List.mem_cons_of_mem _ h)
    · simp only [setA, h₀, if_false] at h
      rcases List.mem_cons.1 h with h | h
      · exact Or.inr (h ▸ List.mem_cons_self _ _)
      · rcases ih h with h | h
        · exact Or.inl h
        · exact Or.inr (List.mem_cons_of_mem _ h)

theorem lookupA_setA_none {l : List (κ' × β')} [DecidableEq κ']
    {k₀ k : κ'} {v : β'} (h : lookupA (setA l k₀ v) k = none) :
    lookupA l k = none := by
  by_cases h₀ : k₀ = k
  · subst h₀
    rw [lookupA_setA_self] at h
    exact absurd h (by simp)
  · rwa [lookupA_setA_ne l k₀ k v h₀] at h

theorem keyList_zero_mes_empresa (mes : Int) (d : AnoDict) (nome : String) :
    keyList (zero_mes_empresa mes d nome) = keyList d := by
  rw [zero_mes_empresa_eq]
  cases h : lookupA d nome with
  | none => rfl
  | some r => exact keyList_setA_of_mem _ _ _ (by rw [h]; rfl)

theorem keyList_zero_phase (mes : Int) (mapa : List (String × String)) :
    ∀ d : AnoDict, keyList (zero_phase mes mapa d) = keyList d := by
  induction mapa with
  | nil => intro d; rfl
  | cons p rest ih =>
    intro d
    simp only [zero_phase, List.foldl_cons] at ih ⊢
    rw [ih, keyList_zero_mes_empresa]

theorem lookupA_zero_mes_empresa (mes : Int) (d : AnoDict) (nome k : String) :
    lookupA (zero_mes_empresa mes d nome) k =
      if nome = k then (lookupA d k).map (zeroRec mes) else lookupA d k := by
  rw [zero_mes_empresa_eq]
  cases h : lookupA d nome with
  | none =>
    by_cases hk : nome = k
    · subst hk
      simp [h]
    · simp [hk]
  | some r =>
    show lookupA (setA d nome (zeroRec mes r)) k =
      if nome = k then (lookupA d k).map (zeroRec mes) else lookupA d k
    by_cases hk : nome = k
    · subst hk
      rw [lookupA_setA_self, h]
      simp
    · rw [lookupA_setA_ne _ _ _ _ hk]
      simp [hk]

theorem lookupA_zero_phase (mes : Int) (mapa : List (String × String)) :
    ∀ (d : AnoDict) (k : String),
      lookupA (zero_phase mes mapa d) k =
        if k ∈ mapa.map Prod.snd then (lookupA d k).map (zeroRec mes)
        else lookupA d k := by
  induction mapa with
  | nil => intro d k; simp [zero_phase]
  | cons p rest ih =>
    intro d k
    obtain ⟨n, nome⟩ := p
    simp only [zero_phase, List.foldl_cons] at ih ⊢
    rw [ih, lookupA_zero_mes_empresa]
    have hcomp : zeroRec mes ∘ zeroRec mes = zeroRec mes :=
      funext (zeroRec_idem mes)
    by_cases hrest : k ∈ rest.map Prod.snd
    · by_cases hk : nome = k
      · subst hk
        simp [hrest, Option.map_map, hcomp]
      · simp [hrest, hk]
    · by_cases hk : nome = k
      · subst hk
        simp [hrest]
      · rw [if_neg hk, if_neg hrest, if_neg (by
          simp only [List.map_cons, List.mem_cons]
          push_neg
          exact ⟨fun hh => hk hh.symm, by simpa using hrest⟩)]

section ImportProofsB

variable (mes : Int) (clientes : List Cliente)

theorem mem_keyList_addAno (mapa : List (String × String)) (d : AnoDict)
    (r : Registo) (k : String) :
    k ∈ keyList (addAno mes clientes mapa d r) ↔
      k ∈ keyList d ∨ nomeFor mapa r = k := by
  unfold addAno
  cases h : lookupA d (nomeFor mapa r) with
  | some v =>
    rw [keyList_setA_of_mem _ _ _ (by rw [h]; rfl)]
    constructor
    · exact Or.inl
    · rintro (hk | hk)
      · exact hk
      · rw [← hk]
        exact (mem_keyList_iff_lookupA _ _).2 (by rw [h]; rfl)
  | none =>
    rw [keyList_setA_of_not_mem _ _ _ h]
    simp only [List.mem_append, List.mem_singleton]
    constructor
    · rintro (hk | hk)
      · exact Or.inl hk
      · exact Or.inr hk.symm
    · rintro (hk | hk)
      · exact Or.inl hk
      · exact Or.inr hk.symm

theorem mem_keyList_addAllAno (mapa : List (String × String)) :
    ∀ (us : List Registo) (d : AnoDict) (k : String),
      k ∈ keyList (addAllAno mes clientes mapa us d) ↔
        k ∈ keyList d ∨ ∃ r ∈ us, nomeFor mapa r = k := by
  intro us
  induction us with
  | nil => intro d k; simp [addAllAno]
  | cons r rest ih =>
    intro d k
    simp only [addAllAno, List.foldl_cons] at ih ⊢
    rw [ih, mem_keyList_addAno]
    constructor
    · rintro ((hk | hk) | ⟨r', hr', hk⟩)
      · exact Or.inl hk
      · exact Or.inr ⟨r, List.mem_cons_self _ _, hk⟩
      · exact Or.inr ⟨r', List.mem_cons_of_mem _ hr', hk⟩
    · rintro (hk | ⟨r', hr', hk⟩)
      · exact Or.inl (Or.inl hk)
      · rcases List.mem_cons.1 hr' with h | h
        · exact Or.inl (Or.inr (h ▸ hk))
        · exact Or.inr ⟨r', h, hk⟩

theorem keyList_addAllAno_append (mapa : List (String × String)) :
    ∀ (us : List Registo) (d : AnoDict),
      ∃ L, keyList (addAllAno mes clientes mapa us d) = keyList d ++ L
        ∧ ∀ k ∈ L, lookupA d k = none ∧ ∃ r ∈ us, nomeFor mapa r = k := by
  intro us
  induction us with
  | nil => intro d; exact ⟨[], by simp [addAllAno], by simp⟩
  | cons r rest ih =>
    intro d
    simp only [addAllAno, List.foldl_cons] at ih ⊢
    cases h : lookupA d (nomeFor mapa r) with
    | some v =>
      obtain ⟨L, hL, hprop⟩ := ih (addAno mes clientes mapa d r)
      refine ⟨L, ?_, ?_⟩
      · rw [hL]
        unfold addAno
        rw [keyList_setA_of_mem _ _ _ (by rw [h]; rfl)]
      · intro k hk
        obtain ⟨hnone, r', hr', hk'⟩ := hprop k hk
        refine ⟨?_, r', List.mem_cons_of_mem _ hr', hk'⟩
        unfold addAno at hnone
        exact lookupA_setA_none hnone
    | none =>
      obtain ⟨L, hL, hprop⟩ := ih (addAno mes clientes mapa d r)
      refine ⟨nomeFor mapa r :: L, ?_, ?_⟩
      · rw [hL]
        unfold addAno
        rw [keyList_setA_of_not_mem _ _ _ h]
        simp
      · intro k hk
        rcases List.mem_cons.1 hk with hk | hk
        · subst hk
          exact ⟨h, r, List.mem_cons_self _ _, rfl⟩
        · obtain ⟨hnone, r', hr', hk'⟩ := hprop k hk
          refine ⟨?_, r', List.mem_cons_of_mem _ hr', hk'⟩
          unfold addAno at hnone
          exact lookupA_setA_none hnone

theorem keyList_addAllAno_of_present (mapa : List (String × String)) :
    ∀ (us : List Registo) (d : AnoDict),
      (∀ r ∈ us, nomeFor mapa r ∈ keyList d) →
      keyList (addAllAno mes clientes mapa us d) = keyList d := by
  intro us
  induction us with
  | nil => intro d _; rfl
  | cons r rest ih =>
    intro d hpres
    simp only [addAllAno, List.foldl_cons] at ih ⊢
    have hk : keyList (addAno mes clientes mapa d r) = keyList d := by
      unfold addAno
      exact keyList_setA_of_mem _ _ _
        ((mem_keyList_iff_lookupA _ _).1 (hpres r (List.mem_cons_self _ _)))
    rw [ih _ (fun r' hr' => hk ▸ hpres r' (List.mem_cons_of_mem _ hr')), hk]

theorem nodup_keyList_addAllAno (mapa : List (String × String)) :
    ∀ (us : List Registo) (d : AnoDict),
      (keyList d).Nodup → (keyList (addAllAno mes clientes mapa us d)).Nodup := by
  intro us
  induction us with
  | nil => intro d h; exact h
  | cons r rest ih =>
    intro d h
    simp only [addAllAno, List.foldl_cons] at ih ⊢
    apply ih
    unfold addAno
    cases hl : lookupA d (nomeFor mapa r) with
    | some v => rw [keyList_setA_of_mem _ _ _ (by rw [hl]; rfl)]; exact h
    | none =>
      rw [keyList_setA_of_not_mem _ _ _ hl]
      rw [List.nodup_append]
      refine ⟨h, List.nodup_singleton _, ?_⟩
      intro a ha hb
      simp only [List.mem_singleton] at hb
      subst hb
      exact absurd ((mem_keyList_iff_lookupA _ _).1 ha) (by rw [hl]; simp)

/-- Option-level accumulation of record additions at a fixed key. -/
def addOpt (o : Option EmpresaRec) (r : Registo) : Option EmpresaRec :=
  some (addRec mes clientes r (o.getD defaultEmpresaRec))

theorem lookupA_addAllAno (mapa : List (String × String)) :
    ∀ (us : List Registo) (d : AnoDict) (k : String),
      lookupA (addAllAno mes clientes mapa us d) k =
        (us.filter (fun r => nomeFor mapa r == k)).foldl
          (addOpt mes clientes) (lookupA d k) := by
  intro us
  induction us with
  | nil => intro d k; rfl
  | cons r rest ih =>
    intro d k
    simp only [addAllAno, List.foldl_cons] at ih ⊢
    by_cases heq : nomeFor mapa r = k
    · rw [List.filter_cons_of_pos (by simpa using heq), List.foldl_cons]
      rw [ih]
      congr 1
      unfold addAno addOpt
      rw [heq, lookupA_setA_self]
    · rw [List.filter_cons_of_neg (by simpa using heq)]
      rw [ih]
      congr 1
      unfold addAno
      rw [lookupA_setA_ne _ _ _ _ heq]

theorem foldl_addOpt_ne_nil :
    ∀ (us : List Registo) (o : Option EmpresaRec), us ≠ [] →
      us.foldl (addOpt mes clientes) o =
        some (addRecs mes clientes us (o.getD defaultEmpresaRec)) := by
  intro us
  induction us with
  | nil => intro o h; exact absurd rfl h
  | cons r rest ih =>
    intro o _
    by_cases hrest : rest = []
    · subst hrest
      simp [addOpt, addRecs]
    · rw [List.foldl_cons, ih _ hrest]
      simp only [addOpt, Option.getD_some]
      rfl

end ImportProofsB

section ImportProofsC

variable (mes : Int) (clientes : List Cliente)

def msum (us : List Registo) : Int :=
  (us.map Registo.minutos).sum

def techFold (us : List Registo)
    (pt : List (String × List (Int × Int))) :
    List (String × List (Int × Int)) :=
  us.foldl (techUpd mes clientes) pt

/-- The technician key one record contributes to, if any. -/
def canonKey (r : Registo) : Option String :=
  match canonTf clientes r with
  | some t => if t = "" then none else some (canonical_tecnico_nome (some t))
  | none => none

theorem techUpd_eq (pt : List (String × List (Int × Int))) (r : Registo) :
    techUpd mes clientes pt r =
      match canonKey clientes r with
      | none => pt
      | some c =>
        setA pt c (setA ((lookupA pt c).getD []) mes
          ((lookupA ((lookupA pt c).getD []) mes).getD 0 + r.minutos)) := by
  unfold techUpd canonKey
  cases canonTf clientes r with
  | none => rfl
  | some t =>
    by_cases ht : t = ""
    · simp [ht]
    · simp [ht]

/-- The decomposition of a run of record additions into its four
independent components. -/
theorem addRecs_decomp (us : List Registo) :
    ∀ s : EmpresaRec, us ≠ [] →
      addRecs mes clientes us s =
        { meses := setA s.meses mes ((lookupA s.meses mes).getD 0 + msum us)
          extra_mensal := s.extra_mensal
          apagado := false
          por_tecnico := techFold mes clientes us s.por_tecnico } := by
  induction us with
  | nil => intro s h; exact absurd rfl h
  | cons r rest ih =>
    intro s _
    by_cases hrest : rest = []
    · subst hrest
      show addRec mes clientes r s = _
      unfold addRec
      simp [msum, techFold]
    · show addRecs mes clientes rest (addRec mes clientes r s) = _
      rw [ih _ hrest]
      unfold addRec
      simp only [lookupA_setA_self, Option.getD_some, setA_setA,
        EmpresaRec.mk.injEq]
      refine ⟨?_, by trivial, by trivial, ?_⟩
      · have hmsum : (lookupA s.meses mes).getD 0 + r.minutos + msum rest
            = (lookupA s.meses mes).getD 0 + msum (r :: rest) := by
          simp only [msum, List.map_cons, List.sum_cons]
          omega
        rw [hmsum]
      · simp [techFold]

/-- Mapped month-pop over a technician dict commutes with a single
assignment. -/
theorem zeroTech_setA (pt : List (String × List (Int × Int))) (c : String)
    (v : List (Int × Int)) :
    zeroTech mes (setA pt c v) = setA (zeroTech mes pt) c (popA v mes) := by
  induction pt with
  | nil => simp [zeroTech, setA]
  | cons p t ih =>
    obtain ⟨c', m'⟩ := p
    by_cases h : c' = c
    · simp [zeroTech, setA, h]
    · simp only [zeroTech, List.map_cons, setA, h, if_false] at ih ⊢
      rw [ih]

theorem lookupA_zeroTech (pt : List (String × List (Int × Int))) (c : String) :
    lookupA (zeroTech mes pt) c = (lookupA pt c).map (fun m => popA m mes) := by
  induction pt with
  | nil => simp [zeroTech, lookupA]
  | cons p t ih =>
    obtain ⟨c', m'⟩ := p
    by_cases h : c' = c
    · simp [zeroTech, lookupA, h]
    · simp only [zeroTech, List.map_cons, lookupA, h, if_false]
      exact ih

theorem keyList_zeroTech (pt : List (String × List (Int × Int))) :
    keyList (zeroTech mes pt) = keyList pt := by
  simp [zeroTech, keyList, List.map_map]

/-- Invariant carried through the technician updates: the month key, if
present in a month map, is its unique and final binding. -/
def mesTrailing (m : List (Int × Int)) : Prop :=
  popA m mes ++
    (match lookupA m mes with
     | some w => [(mes, w)]
     | none => []) = m

theorem mesTrailing_of_none (m : List (Int × Int))
    (h : lookupA m mes = none) : mesTrailing mes m := by
  unfold mesTrailing
  rw [h, popA_of_lookup_none _ _ h]
  simp

theorem mesTrailing_setA (m : List (Int × Int)) (w : Int)
    (h : mesTrailing mes m) : mesTrailing mes (setA m mes w) := by
  unfold mesTrailing at h ⊢
  cases hl : lookupA m mes with
  | none =>
    rw [hl] at h
    simp only [List.append_nil] at h
    rw [setA_of_lookup_none _ _ _ hl]
    rw [popA_append]
    rw [popA_of_lookup_none _ _ hl]
    rw [lookupA_append_mid _ _ _ _ hl]
    simp [popA]
  | some u =>
    rw [hl] at h
    have hm : m = popA m mes ++ [(mes, u)] := h.symm
    rw [hm, setA_append_mid _ _ _ _ _ (lookupA_popA_self m mes)]
    rw [popA_append, popA_popA, lookupA_append_mid _ _ _ _ (lookupA_popA_self m mes)]
    simp [popA]

theorem mesTrailing_setA_shape (m : List (Int × Int)) (w : Int)
    (h : mesTrailing mes m) :
    setA m mes w = popA m mes ++ [(mes, w)] := by
  unfold mesTrailing at h
  cases hl : lookupA m mes with
  | none =>
    rw [hl] at h
    simp only [List.append_nil] at h
    rw [setA_of_lookup_none _ _ _ hl, h]
  | some u =>
    rw [hl] at h
    have hm : m = popA m mes ++ [(mes, u)] := h.symm
    rw [hm, setA_append_mid _ _ _ _ _ (lookupA_popA_self m mes), popA_append,
      popA_popA]
    simp [popA]

theorem zeroTech_of_mes_free (pt : List (String × List (Int × Int)))
    (h : ∀ q ∈ pt, lookupA q.2 mes = none) : zeroTech mes pt = pt := by
  induction pt with
  | nil => rfl
  | cons q t ih =>
    simp only [zeroTech, List.map_cons] at ih ⊢
    rw [popA_of_lookup_none _ _ (h q (List.mem_cons_self _ _))]
    rw [ih (fun q' hq' => h q' (List.mem_cons_of_mem _ hq'))]

/-- The technician keys a run of records appends, in first-occurrence
order, relative to the keys already present. -/
def newTechKeys : List Registo → List String → List String
  | [], _ => []
  | r :: rest, K =>
    match canonKey clientes r with
    | none => newTechKeys rest K
    | some c =>
      if c ∈ K then newTechKeys rest K
      else c :: newTechKeys rest (K ++ [c])

/-- Zeroing after a run of technician updates: the original dict keeps
its zeroed shape and the new keys survive with empty month maps. -/
theorem zeroTech_techFold (us : List Registo) :
    ∀ pt, (∀ q ∈ pt, mesTrailing mes q.2) →
      zeroTech mes (techFold mes clientes us pt) =
        zeroTech mes pt ++
          (newTechKeys clientes us (keyList pt)).map (fun c => (c, [])) := by
  induction us with
  | nil => intro pt _; simp [techFold, newTechKeys]
  | cons r rest ih =>
    intro pt htr
    simp only [techFold, List.foldl_cons] at ih ⊢
    rw [techUpd_eq]
    cases hck : canonKey clientes r with
    | none => simpa [newTechKeys, hck] using ih pt htr
    | some c =>
      cases hl : lookupA pt c with
      | some m =>
        have hcK : c ∈ keyList pt :=
          (mem_keyList_iff_lookupA _ _).2 (by rw [hl]; rfl)
        have htrm : mesTrailing mes m :=
          htr (c, m) (lookupA_mem_pair _ _ _ hl)
        simp only [hl, Option.getD_some]
        have htr' : ∀ q ∈ setA pt c (setA m mes ((lookupA m mes).getD 0 + r.minutos)),
            mesTrailing mes q.2 := by
          intro q hq
          rcases mem_setA hq with hq | hq
          · rw [hq]
            exact mesTrailing_setA mes m _ htrm
          · exact htr q hq
        rw [ih _ htr']
        rw [keyList_setA_of_mem _ _ _ (by rw [hl]; rfl)]
        rw [zeroTech_setA, popA_setA_self]
        rw [setA_lookup_self _ _ _ (by rw [lookupA_zeroTech, hl]; rfl)]
        simp [newTechKeys, hck, hcK]
      | none =>
        have hcK : c ∉ keyList pt := by
          rw [mem_keyList_iff_lookupA, hl]
          simp
        simp only [hl, Option.getD_none]
        have hset : setA pt c (setA [] mes ((lookupA ([] : List (Int × Int)) mes).getD 0 + r.minutos))
            = pt ++ [(c, [(mes, 0 + r.minutos)])] := by
          rw [setA_of_lookup_none _ _ _ hl]
          rfl
        rw [hset]
        have htr' : ∀ q ∈ pt ++ [(c, [(mes, 0 + r.minutos)])], mesTrailing mes q.2 := by
          intro q hq
          rcases List.mem_append.1 hq with hq | hq
          · exact htr q hq
          · simp only [List.mem_singleton] at hq
            rw [hq]
            show mesTrailing mes [(mes, 0 + r.minutos)]
            unfold mesTrailing
            simp [popA, lookupA]
        rw [ih _ htr']
        rw [keyList_append]
        show zeroTech mes (pt ++ [(c, [(mes, 0 + r.minutos)])]) ++ _ = _
        have hzt : zeroTech mes (pt ++ [(c, [(mes, 0 + r.minutos)])])
            = zeroTech mes pt ++ [(c, [])] := by
          unfold zeroTech
          rw [List.map_append]
          simp [popA]
        rw [hzt]
        have hnew : newTechKeys clientes (r :: rest) (keyList pt)
            = c :: newTechKeys clientes rest (keyList pt ++ [c]) := by
          simp [newTechKeys, hck, hcK]
        rw [hnew]
        simp [keyList]

/-- Pre-seeding the technician dict with the keys the run would append,
holding empty month maps, does not change the result of the run. -/
theorem techFold_append_newKeys (us : List Registo) :
    ∀ pt, techFold mes clientes us
        (pt ++ (newTechKeys clientes us (keyList pt)).map (fun c => (c, [])))
      = techFold mes clientes us pt := by
  induction us with
  | nil => intro pt; simp [techFold, newTechKeys]
  | cons r rest ih =>
    intro pt
    simp only [techFold, List.foldl_cons] at ih ⊢
    rw [techUpd_eq, techUpd_eq]
    cases hck : canonKey clientes r with
    | none => simpa [newTechKeys, hck] using ih pt
    | some c =>
      cases hl : lookupA pt c with
      | some m =>
        have hcK : c ∈ keyList pt :=
          (mem_keyList_iff_lookupA _ _).2 (by rw [hl]; rfl)
        simp only [newTechKeys, hck, hcK, if_pos]
        rw [lookupA_append_left _ _ _ _ hl]
        simp only [hl, Option.getD_some]
        rw [setA_append_left _ _ _ _ (by rw [hl]; rfl)]
        have hkeys : keyList (setA pt c (setA m mes ((lookupA m mes).getD 0 + r.minutos)))
            = keyList pt := keyList_setA_of_mem _ _ _ (by rw [hl]; rfl)
        have := ih (setA pt c (setA m mes ((lookupA m mes).getD 0 + r.minutos)))
        rw [hkeys] at this
        exact this
      | none =>
        have hcK : c ∉ keyList pt := by
          rw [mem_keyList_iff_lookupA, hl]
          simp
        simp only [newTechKeys, hck, hcK, if_neg, if_false]
        rw [List.map_cons]
        have hmid : lookupA (pt ++ (c, ([] : List (Int × Int))) ::
            (newTechKeys clientes rest (keyList pt ++ [c])).map (fun c => (c, []))) c
            = some [] := lookupA_append_mid _ _ _ _ hl
        rw [hmid]
        simp only [hl, Option.getD_none, Option.getD_some]
        rw [setA_append_mid _ _ _ _ _ hl]
        rw [setA_of_lookup_none _ _ _ hl]
        have hassoc : pt ++ (c, setA [] mes ((lookupA ([] : List (Int × Int)) mes).getD 0 + r.minutos)) ::
            (newTechKeys clientes rest (keyList pt ++ [c])).map (fun c => (c, []))
            = (pt ++ [(c, setA [] mes ((lookupA ([] : List (Int × Int)) mes).getD 0 + r.minutos))]) ++
              (newTechKeys clientes rest (keyList pt ++ [c])).map (fun c => (c, [])) := by
          simp
        rw [hassoc]
        have hkeys : keyList (pt ++ [(c, setA [] mes ((lookupA ([] : List (Int × Int)) mes).getD 0 + r.minutos))])
            = keyList pt ++ [c] := by
          rw [keyList_append]
          rfl
        have := ih (pt ++ [(c, setA [] mes ((lookupA ([] : List (Int × Int)) mes).getD 0 + r.minutos))])
        rw [hkeys] at this
        exact this

/-- Replaying the same run of additions after re-zeroing the month
reproduces the same record. -/
theorem addRecs_replay (us : List Registo) (s : EmpresaRec)
    (hus : us ≠ [])
    (hmes : (∃ p, s.meses = p ++ [(mes, 0)] ∧ lookupA p mes = none)
      ∨ s.meses = [])
    (hpt : ∀ q ∈ s.por_tecnico, lookupA q.2 mes = none) :
    addRecs mes clientes us (zeroRec mes (addRecs mes clientes us s))
      = addRecs mes clientes us s := by
  have hT := addRecs_decomp mes clientes us s hus
  have hZM : (zeroRec mes (addRecs mes clientes us s)).meses
      = popA s.meses mes ++ [(mes, 0)] := by
    rw [hT]
    show setA (popA (setA s.meses mes _) mes) mes 0 = _
    rw [popA_setA_self, setA_of_lookup_none _ _ _ (lookupA_popA_self _ _)]
  have hZPT : (zeroRec mes (addRecs mes clientes us s)).por_tecnico
      = zeroTech mes (techFold mes clientes us s.por_tecnico) := by
    rw [hT]
    rfl
  have hZE : (zeroRec mes (addRecs mes clientes us s)).extra_mensal
      = s.extra_mensal := by
    rw [hT]
    rfl
  rw [addRecs_decomp mes clientes us (zeroRec mes (addRecs mes clientes us s)) hus]
  rw [hZM, hZPT, hZE, hT]
  simp only [EmpresaRec.mk.injEq]
  refine ⟨?_, by trivial, by trivial, ?_⟩
  · have hw : lookupA (popA s.meses mes ++ [(mes, 0)]) mes = some 0 :=
      lookupA_append_mid _ _ _ _ (lookupA_popA_self _ _)
    rw [hw]
    rw [setA_append_mid _ _ _ _ _ (lookupA_popA_self _ _)]
    rcases hmes with ⟨p, hp, hpn⟩ | hnil
    · have hv : lookupA s.meses mes = some 0 := by
        rw [hp]
        exact lookupA_append_mid _ _ _ _ hpn
      rw [hv, hp, setA_append_mid _ _ _ _ _ hpn]
      rw [popA_append, popA_of_lookup_none _ _ hpn]
      simp [popA]
    · rw [hnil]
      simp [popA, lookupA, setA]
  · have htr : ∀ q ∈ s.por_tecnico, mesTrailing mes q.2 :=
      fun q hq => mesTrailing_of_none mes _ (hpt q hq)
    rw [zeroTech_techFold mes clientes us s.por_tecnico htr,
      zeroTech_of_mes_free mes _ hpt,
      techFold_append_newKeys mes clientes us s.por_tecnico]

end ImportProofsC

theorem norm_empresa_forte_empty : norm_empresa_forte "" = "" := rfl

theorem mem_setdefaultA {l : List (String × String)} {k v : String}
    {q : String × String} (h : q ∈ setdefaultA l k v) : q ∈ l ∨ q = (k, v) := by
  unfold setdefaultA at h
  cases hl : lookupA l k with
  | some w => rw [hl] at h; exact Or.inl h
  | none =>
    rw [hl] at h
    rcases List.mem_append.1 h with h | h
    · exact Or.inl h
    · simp only [List.mem_singleton] at h
      exact Or.inr h

theorem lookupA_setdefaultA_isSome {l : List (String × String)} {k v n : String}
    (h : (lookupA l n).isSome) : (lookupA (setdefaultA l k v) n).isSome := by
  unfold setdefaultA
  cases hl : lookupA l k with
  | some w => exact h
  | none =>
    obtain ⟨w, hw⟩ := Option.isSome_iff_exists.1 h
    rw [lookupA_append_left _ _ _ _ hw]
    rfl

theorem lookupA_setdefaultA_key_isSome (l : List (String × String)) (k v : String) :
    (lookupA (setdefaultA l k v) k).isSome := by
  unfold setdefaultA
  cases hl : lookupA l k with
  | some w => rw [hl]; rfl
  | none =>
    rw [lookupA_append_of_none _ _ _ hl]
    simp [lookupA]

/-- The facts about a validated record that the import proofs use. -/
def ValidReg (r : Registo) : Prop :=
  0 < r.minutos ∧ r.empresa_norm = norm_empresa_forte r.empresa
    ∧ r.empresa_norm ≠ ""

theorem registos_validos_prop (raws : List RawRegisto) :
    ∀ r ∈ registos_validos raws, ValidReg r := by
  intro r hr
  simp only [registos_validos, List.mem_filterMap] at hr
  obtain ⟨a, _, ha⟩ := hr
  by_cases h1 : a.minutos ≤ 0
  · simp [h1] at ha
  · by_cases h2 : norm_empresa_forte a.empresa = ""
    · simp [h1, h2] at ha
    · simp only [h1, if_false, h2, Option.some.injEq] at ha
      subst ha
      refine ⟨?_, rfl, h2⟩
      show 0 < a.minutos
      omega

/-- The invariant maintained by the dedup loop. -/
def DedupInv (st : DedupState) : Prop :=
  (∀ r ∈ st.unicos, ValidReg r)
  ∧ (∀ n ∈ st.empresas_afetadas_norm, ∃ r ∈ st.unicos, r.empresa_norm = n)
  ∧ (∀ r ∈ st.unicos, r.empresa_norm ∈ st.empresas_afetadas_norm)
  ∧ (∀ p ∈ st.empresa_display_por_norm, norm_empresa_forte p.2 = p.1 ∧ p.2 ≠ "")
  ∧ (∀ n ∈ st.empresas_afetadas_norm,
      (lookupA st.empresa_display_por_norm n).isSome)
  ∧ st.empresas_afetadas_norm.Nodup

theorem dedupInit_inv : DedupInv dedupInit := by
  refine ⟨?_, ?_, ?_, ?_, ?_, ?_⟩ <;> simp [dedupInit]

theorem dedup_step_inv (mes : Int) (st : DedupState) (r : Registo)
    (hV : ValidReg r) (h : DedupInv st) : DedupInv (dedup_step mes st r) := by
  obtain ⟨h1, h2, h3, h4, h5, h6⟩ := h
  unfold dedup_step
  by_cases hm : r.minutos ≤ 0
  · rw [if_pos hm]
    exact ⟨h1, h2, h3, h4, h5, h6⟩
  rw [if_neg hm]
  by_cases hn : r.empresa_norm = ""
  · rw [if_pos hn]
    exact ⟨h1, h2, h3, h4, h5, h6⟩
  rw [if_neg hn]
  have hemp : r.empresa ≠ "" := by
    intro he
    exact hn (hV.2.1.trans (he ▸ norm_empresa_forte_empty))
  have hdisp : (if r.empresa = "" then r.empresa_norm else r.empresa) = r.empresa := by
    rw [if_neg hemp]
  have h4' : ∀ p ∈ setdefaultA st.empresa_display_por_norm r.empresa_norm
      (if r.empresa = "" then r.empresa_norm else r.empresa),
      norm_empresa_forte p.2 = p.1 ∧ p.2 ≠ "" := by
    intro p hp
    rcases mem_setdefaultA hp with hp | hp
    · exact h4 p hp
    · rw [hp, hdisp]
      exact ⟨hV.2.1.symm, hemp⟩
  have h5' : ∀ n ∈ st.empresas_afetadas_norm,
      (lookupA (setdefaultA st.empresa_display_por_norm r.empresa_norm
        (if r.empresa = "" then r.empresa_norm else r.empresa)) n).isSome :=
    fun n hn' => lookupA_setdefaultA_isSome (h5 n hn')
  cases htc : tecnico_chave r.tipo r.canonico with
  | none =>
    dsimp only
    exact ⟨h1, h2, h3, h4', h5', h6⟩
  | some tchave =>
    dsimp only
    by_cases hseen : (r.empresa_norm, tchave, mes, r.minutos) ∈ st.seen
    · rw [if_pos hseen]
      exact ⟨h1, h2, h3, h4', h5', h6⟩
    · rw [if_neg hseen]
      refine ⟨?_, ?_, ?_, h4', ?_, ?_⟩
      · intro r' hr'
        rcases List.mem_append.1 hr' with hr' | hr'
        · exact h1 r' hr'
        · simp only [List.mem_singleton] at hr'
          exact hr' ▸ hV
      · intro n hn'
        by_cases hmem : r.empresa_norm ∈ st.empresas_afetadas_norm
        · rw [if_pos hmem] at hn'
          obtain ⟨r', hr', hr'n⟩ := h2 n hn'
          exact ⟨r', List.mem_append_left _ hr', hr'n⟩
        · rw [if_neg hmem] at hn'
          rcases List.mem_append.1 hn' with hn' | hn'
          · obtain ⟨r', hr', hr'n⟩ := h2 n hn'
            exact ⟨r', List.mem_append_left _ hr', hr'n⟩
          · simp only [List.mem_singleton] at hn'
            exact ⟨r, List.mem_append_right _ (List.mem_singleton.2 rfl), hn'.symm⟩
      · intro r' hr'
        have hgrow : ∀ x ∈ st.empresas_afetadas_norm,
            x ∈ (if r.empresa_norm ∈ st.empresas_afetadas_norm then
              st.empresas_afetadas_norm
            else st.empresas_afetadas_norm ++ [r.empresa_norm]) := by
          intro x hx
          by_cases hmem : r.empresa_norm ∈ st.empresas_afetadas_norm
          · rwa [if_pos hmem]
          · rw [if_neg hmem]
            exact List.mem_append_left _ hx
        rcases List.mem_append.1 hr' with hr' | hr'
        · exact hgrow _ (h3 r' hr')
        · simp only [List.mem_singleton] at hr'
          subst hr'
          by_cases hmem : r'.empresa_norm ∈ st.empresas_afetadas_norm
          · rwa [if_pos hmem]
          · rw [if_neg hmem]
            exact List.mem_append_right _ (List.mem_singleton.2 rfl)
      · intro n hn'
        by_cases hmem : r.empresa_norm ∈ st.empresas_afetadas_norm
        · rw [if_pos hmem] at hn'
          exact h5' n hn'
        · rw [if_neg hmem] at hn'
          rcases List.mem_append.1 hn' with hn' | hn'
          · exact h5' n hn'
          · simp only [List.mem_singleton] at hn'
            subst hn'
            exact lookupA_setdefaultA_key_isSome _ _ _
      · by_cases hmem : r.empresa_norm ∈ st.empresas_afetadas_norm
        · rwa [if_pos hmem]
        · rw [if_neg hmem]
          rw [List.nodup_append]
          refine ⟨h6, List.nodup_singleton _, ?_⟩
          intro a ha hb
          simp only [List.mem_singleton] at hb
          exact hmem (hb ▸ ha)

theorem dedup_batch_inv (mes : Int) (rs : List Registo)
    (hV : ∀ r ∈ rs, ValidReg r) : DedupInv (dedup_batch mes rs) := by
  unfold dedup_batch
  suffices h : ∀ (l : List Registo) (st : DedupState), (∀ r ∈ l, ValidReg r) →
      DedupInv st → DedupInv (l.foldl (dedup_step mes) st) by
    exact h rs dedupInit hV dedupInit_inv
  intro l
  induction l with
  | nil => intro st _ hst; exact hst
  | cons r rest ih =>
    intro st hl hst
    rw [List.foldl_cons]
    exact ih _ (fun r' hr' => hl r' (List.mem_cons_of_mem _ hr'))
      (dedup_step_inv mes st r (hl r (List.mem_cons_self _ _)) hst)

theorem find?_append_some {β : Type v} (l₁ l₂ : List β) (p : β → Bool) (a : β)
    (h : l₁.find? p = some a) : (l₁ ++ l₂).find? p = some a := by
  induction l₁ with
  | nil => simp [List.find?] at h
  | cons b t ih =>
    by_cases hb : p b = true
    · rw [List.find?_cons_of_pos _ hb] at h
      rw [List.cons_append, List.find?_cons_of_pos _ hb]
      exact h
    · rw [List.find?_cons_of_neg _ (by simpa using hb)] at h
      rw [List.cons_append, List.find?_cons_of_neg _ (by simpa using hb)]
      exact ih h

theorem find?_append_none {β : Type v} (l₁ l₂ : List β) (p : β → Bool)
    (h : l₁.find? p = none) : (l₁ ++ l₂).find? p = l₂.find? p := by
  induction l₁ with
  | nil => simp
  | cons b t ih =>
    by_cases hb : p b = true
    · rw [List.find?_cons_of_pos _ hb] at h
      exact absurd h (by simp)
    · rw [List.find?_cons_of_neg _ (by simpa using hb)] at h
      rw [List.cons_append, List.find?_cons_of_neg _ (by simpa using hb)]
      exact ih h

theorem lookupA_map_pair {f : String → String} (A : List String) (n : String)
    (hn : n ∈ A) : lookupA (A.map (fun x => (x, f x))) n = some (f n) := by
  induction A with
  | nil => simp at hn
  | cons a t ih =>
    by_cases ha : a = n
    · subst ha
      simp [lookupA]
    · rcases List.mem_cons.1 hn with h | h
      · exact absurd h.symm ha
      · simp only [List.map_cons, lookupA, ha, if_false]
        exact ih h

section ImportProofsD

variable (mes : Int) (clientes : List Cliente)

/-- The company name a normalised key resolves to during the apply
phase. -/
def Mfun (st : DedupState) (d : AnoDict) (n : String) : String :=
  match encontrar_empresa_existente_por_norm d n with
  | some existente => existente
  | none => (lookupA st.empresa_display_por_norm n).getD n

theorem empresa_nome_para_inserir_eq (st : DedupState) (d : AnoDict) :
    empresa_nome_para_inserir d st =
      st.empresas_afetadas_norm.map (fun n => (n, Mfun st d n)) := by
  unfold empresa_nome_para_inserir Mfun
  apply List.map_congr_left
  intro n _
  cases encontrar_empresa_existente_por_norm d n <;> rfl

theorem nomeFor_empresa_nome (st : DedupState) (d : AnoDict) (r : Registo)
    (hr : r.empresa_norm ∈ st.empresas_afetadas_norm) :
    nomeFor (empresa_nome_para_inserir d st) r = Mfun st d r.empresa_norm := by
  unfold nomeFor
  rw [empresa_nome_para_inserir_eq, lookupA_map_pair _ _ hr]
  rfl

theorem encontrar_some (d : AnoDict) (n k : String)
    (h : encontrar_empresa_existente_por_norm d n = some k) :
    k ∈ keyList d ∧ norm_empresa_forte k = n := by
  unfold encontrar_empresa_existente_por_norm at h
  refine ⟨List.mem_of_find?_eq_some h, ?_⟩
  have := List.find?_some h
  simpa using this

theorem encontrar_none (d : AnoDict) (n : String)
    (h : encontrar_empresa_existente_por_norm d n = none) :
    ∀ k ∈ keyList d, norm_empresa_forte k ≠ n := by
  unfold encontrar_empresa_existente_por_norm at h
  intro k hk
  have := List.find?_eq_none.1 h k hk
  simpa using this

theorem Mfun_norm (st : DedupState) (d : AnoDict) (n : String)
    (hinv : DedupInv st) (hn : n ∈ st.empresas_afetadas_norm) :
    norm_empresa_forte (Mfun st d n) = n := by
  unfold Mfun
  cases henc : encontrar_empresa_existente_por_norm d n with
  | some k => exact (encontrar_some d n k henc).2
  | none =>
    obtain ⟨s, hs⟩ := Option.isSome_iff_exists.1 (hinv.2.2.2.2.1 n hn)
    rw [hs]
    exact (hinv.2.2.2.1 _ (lookupA_mem_pair _ _ _ hs)).1

theorem Mfun_not_mem (st : DedupState) (d : AnoDict) (n : String)
    (hinv : DedupInv st) (hn : n ∈ st.empresas_afetadas_norm)
    (henc : encontrar_empresa_existente_por_norm d n = none) :
    Mfun st d n ∉ keyList d := by
  intro hmem
  exact encontrar_none d n henc _ hmem (Mfun_norm st d n hinv hn)

/-- Keys appended by one application relative to the original dict. -/
theorem applyAno_keyList (st : DedupState) (d : AnoDict) :
    ∃ L, keyList (applyAno mes clientes st d) = keyList d ++ L
      ∧ ∀ k ∈ L, lookupA d k = none
        ∧ ∃ r ∈ st.unicos, nomeFor (empresa_nome_para_inserir d st) r = k := by
  unfold applyAno
  obtain ⟨L, hL, hprop⟩ := keyList_addAllAno_append mes clientes
    (empresa_nome_para_inserir d st) st.unicos
    (zero_phase mes (empresa_nome_para_inserir d st) d)
  refine ⟨L, by rw [hL, keyList_zero_phase], ?_⟩
  intro k hk
  obtain ⟨hnone, hex⟩ := hprop k hk
  refine ⟨?_, hex⟩
  rw [lookupA_zero_phase] at hnone
  by_cases hmem : k ∈ (empresa_nome_para_inserir d st).map Prod.snd
  · rw [if_pos hmem] at hnone
    exact Option.map_eq_none'.1 hnone
  · rwa [if_neg hmem] at hnone

theorem applyAno_mem_keyList (st : DedupState) (d : AnoDict) (r : Registo)
    (hr : r ∈ st.unicos) :
    nomeFor (empresa_nome_para_inserir d st) r ∈
      keyList (applyAno mes clientes st d) := by
  unfold applyAno
  exact (mem_keyList_addAllAno mes clientes _ st.unicos _ _).2
    (Or.inr ⟨r, hr, rfl⟩)

/-- Resolution stability: after one application, every affected key
resolves to the same company name as before. -/
theorem Mfun_applyAno (st : DedupState) (d : AnoDict) (n : String)
    (hinv : DedupInv st) (hn : n ∈ st.empresas_afetadas_norm) :
    Mfun st (applyAno mes clientes st d) n = Mfun st d n := by
  obtain ⟨L, hL, hprop⟩ := applyAno_keyList mes clientes st d
  cases henc : encontrar_empresa_existente_por_norm d n with
  | some k =>
    have : encontrar_empresa_existente_por_norm (applyAno mes clientes st d) n
        = some k := by
      unfold encontrar_empresa_existente_por_norm at henc ⊢
      rw [hL]
      exact find?_append_some _ _ _ _ henc
    unfold Mfun
    rw [this, henc]
  | none =>
    have hnone : (keyList d).find?
        (fun nome => norm_empresa_forte nome == n) = none := henc
    have hdisp : Mfun st d n = (lookupA st.empresa_display_por_norm n).getD n := by
      unfold Mfun
      rw [henc]
    have hdmem : Mfun st d n ∈ keyList d ++ L := by
      rw [← hL]
      obtain ⟨r, hr, hrn⟩ := hinv.2.1 n hn
      have := applyAno_mem_keyList mes clientes st d r hr
      rwa [nomeFor_empresa_nome st d r (hrn ▸ hinv.2.2.1 r hr), hrn] at this
    have hdnotd : Mfun st d n ∉ keyList d :=
      Mfun_not_mem st d n hinv hn henc
    have hdL : Mfun st d n ∈ L := by
      rcases List.mem_append.1 hdmem with h | h
      · exact absurd h hdnotd
      · exact h
    have huniq : ∀ y ∈ L, (norm_empresa_forte y == n) = true → y = Mfun st d n := by
      intro y hy hpy
      obtain ⟨hynone, r', hr', hy'⟩ := hprop y hy
      have hr'A : r'.empresa_norm ∈ st.empresas_afetadas_norm :=
        hinv.2.2.1 r' hr'
      rw [nomeFor_empresa_nome st d r' hr'A] at hy'
      have hyn : norm_empresa_forte y = n := by simpa using hpy
      cases henc' : encontrar_empresa_existente_por_norm d r'.empresa_norm with
      | some e =>
        exfalso
        have hkey : y ∈ keyList d := by
          rw [← hy']
          unfold Mfun
          rw [henc']
          exact (encontrar_some d _ e henc').1
        rw [mem_keyList_iff_lookupA, hynone] at hkey
        exact absurd hkey (by simp)
      | none =>
        have hyn' : norm_empresa_forte y = r'.empresa_norm := by
          rw [← hy']
          exact Mfun_norm st d _ hinv hr'A
        have : r'.empresa_norm = n := by rw [← hyn', hyn]
        rw [← hy', this]
    have hfind : (keyList d ++ L).find?
        (fun nome => norm_empresa_forte nome == n) = some (Mfun st d n) := by
      rw [find?_append_none _ _ _ hnone]
      exact find?_eq_some_of_unique L _ _ hdL
        (by simp [Mfun_norm st d n hinv hn])
        huniq
    unfold Mfun
    unfold encontrar_empresa_existente_por_norm
    rw [hL, hfind, hnone]
    dsimp only
    exact hdisp.symm ▸ rfl

theorem mapa_applyAno_stable (st : DedupState) (d : AnoDict)
    (hinv : DedupInv st) :
    empresa_nome_para_inserir (applyAno mes clientes st d) st =
      empresa_nome_para_inserir d st := by
  rw [empresa_nome_para_inserir_eq, empresa_nome_para_inserir_eq]
  apply List.map_congr_left
  intro n hn
  rw [Mfun_applyAno mes clientes st d n hinv hn]

/-- Idempotence of the zero-and-replay step on a year slice. -/
theorem applyAno_idem (st : DedupState) (d : AnoDict)
    (hinv : DedupInv st) (hnd : (keyList d).Nodup) :
    applyAno mes clientes st (applyAno mes clientes st d)
      = applyAno mes clientes st d := by
  have hstab : empresa_nome_para_inserir (applyAno mes clientes st d) st =
      empresa_nome_para_inserir d st := mapa_applyAno_stable mes clientes st d hinv
  have hnames : ∀ k, k ∈ (empresa_nome_para_inserir d st).map Prod.snd ↔
      ∃ n ∈ st.empresas_afetadas_norm, Mfun st d n = k := by
    intro k
    rw [empresa_nome_para_inserir_eq]
    simp [List.mem_map]
  have hpres : ∀ r ∈ st.unicos,
      nomeFor (empresa_nome_para_inserir d st) r ∈
        keyList (applyAno mes clientes st d) :=
    fun r hr => applyAno_mem_keyList mes clientes st d r hr
  conv_lhs => rw [applyAno, hstab]
  have hkeys : keyList (addAllAno mes clientes (empresa_nome_para_inserir d st)
      st.unicos (zero_phase mes (empresa_nome_para_inserir d st)
        (applyAno mes clientes st d)))
      = keyList (applyAno mes clientes st d) := by
    rw [keyList_addAllAno_of_present mes clientes _ st.unicos _
      (fun r hr => by rw [keyList_zero_phase]; exact hpres r hr),
      keyList_zero_phase]
  have hnd' : (keyList (applyAno mes clientes st d)).Nodup := by
    unfold applyAno
    exact nodup_keyList_addAllAno mes clientes _ st.unicos _
      (by rw [keyList_zero_phase]; exact hnd)
  apply eq_of_keyList_eq_of_lookupA_eq _ _ hkeys (by rw [hkeys]; exact hnd')
  intro k
  rw [lookupA_addAllAno, lookupA_zero_phase]
  have hrhs : lookupA (applyAno mes clientes st d) k =
      (st.unicos.filter
        (fun r => nomeFor (empresa_nome_para_inserir d st) r == k)).foldl
        (addOpt mes clientes)
        (if k ∈ (empresa_nome_para_inserir d st).map Prod.snd then
          (lookupA d k).map (zeroRec mes)
         else lookupA d k) := by
    conv_lhs => rw [applyAno]
    rw [lookupA_addAllAno, lookupA_zero_phase]
  cases hfil : st.unicos.filter
      (fun r => nomeFor (empresa_nome_para_inserir d st) r == k) with
  | nil =>
    have hknames : k ∉ (empresa_nome_para_inserir d st).map Prod.snd := by
      intro hk
      obtain ⟨n, hnA, hMk⟩ := (hnames k).1 hk
      obtain ⟨r, hr, hrn⟩ := hinv.2.1 n hnA
      have hek : nomeFor (empresa_nome_para_inserir d st) r = k := by
        rw [nomeFor_empresa_nome st d r (hrn ▸ hinv.2.2.1 r hr), hrn, hMk]
      have hmemfil : r ∈ st.unicos.filter
          (fun r => nomeFor (empresa_nome_para_inserir d st) r == k) :=
        List.mem_filter.2 ⟨hr, by simp [hek]⟩
      rw [hfil] at hmemfil
      simp at hmemfil
    rw [if_neg hknames]
    rfl
  | cons r₀ rest₀ =>
    have hfilne : st.unicos.filter
        (fun r => nomeFor (empresa_nome_para_inserir d st) r == k) ≠ [] := by
      rw [hfil]
      simp
    have hknames : k ∈ (empresa_nome_para_inserir d st).map Prod.snd := by
      have hr₀ : r₀ ∈ st.unicos.filter
          (fun r => nomeFor (empresa_nome_para_inserir d st) r == k) := by
        rw [hfil]
        exact List.mem_cons_self _ _
      obtain ⟨hr₀U, hr₀k⟩ := List.mem_filter.1 hr₀
      have hk : nomeFor (empresa_nome_para_inserir d st) r₀ = k := by
        simpa using hr₀k
      have hn₀A : r₀.empresa_norm ∈ st.empresas_afetadas_norm :=
        hinv.2.2.1 r₀ hr₀U
      rw [nomeFor_empresa_nome st d r₀ hn₀A] at hk
      exact (hnames k).2 ⟨r₀.empresa_norm, hn₀A, hk⟩
    have hdk : lookupA (applyAno mes clientes st d) k =
        some (addRecs mes clientes
          (st.unicos.filter
            (fun r => nomeFor (empresa_nome_para_inserir d st) r == k))
          (((lookupA d k).map (zeroRec mes)).getD defaultEmpresaRec)) := by
      rw [hrhs, if_pos hknames, foldl_addOpt_ne_nil mes clientes _ _ hfilne]
    rw [if_pos hknames, hdk]
    simp only [Option.map_some']
    rw [foldl_addOpt_ne_nil mes clientes _ _ (hfil ▸ hfilne)]
    simp only [Option.getD_some]
    rw [← hfil]
    congr 1
    apply addRecs_replay mes clientes _ _ hfilne
    · cases hdk0 : lookupA d k with
      | some rec =>
        left
        refine ⟨popA rec.meses mes, ?_, lookupA_popA_self _ _⟩
        show setA (popA rec.meses mes) mes 0 = _
        rw [setA_of_lookup_none _ _ _ (lookupA_popA_self _ _)]
      | none =>
        right
        rfl
    · cases hdk0 : lookupA d k with
      | some rec =>
        intro q hq
        simp only [Option.map_some', Option.getD_some] at hq
        show lookupA q.2 mes = none
        rcases List.mem_map.1 hq with ⟨t, _, ht⟩
        rw [← ht]
        exact lookupA_popA_self _ _
      | none =>
        intro q hq
        simp only [Option.map_none', Option.getD_none] at hq
        exact absurd hq (by simp [defaultEmpresaRec])

end ImportProofsD

theorem obter_ano_dict_snd (td : TimingsDados) (ano : Int) :
    (obter_ano_dict td ano).2 = (lookupA td (toString ano)).getD [] := by
  unfold obter_ano_dict
  cases lookupA td (toString ano) <;> rfl

theorem obter_ano_dict_lookup (td : TimingsDados) (ano : Int) :
    lookupA (obter_ano_dict td ano).1 (toString ano)
      = some (obter_ano_dict td ano).2 := by
  unfold obter_ano_dict
  cases h : lookupA td (toString ano) with
  | some d => exact h
  | none =>
    dsimp only
    rw [lookupA_append_of_none _ _ _ h]
    simp [lookupA]

theorem obter_ano_dict_fst_of_some (td : TimingsDados) (ano : Int)
    (d : AnoDict) (h : lookupA td (toString ano) = some d) :
    (obter_ano_dict td ano).1 = td := by
  unfold obter_ano_dict
  rw [h]

/-- The non-early branch of one import, written through `applyAno`. -/
theorem importar_apply_nonearly (ano mes : Int) (clientes : List Cliente)
    (outrosRelatos : Bool) (raws : List RawRegisto) (td : TimingsDados)
    (hcond : ¬((dedup_batch mes (registos_validos raws)).unicos = []
      ∧ (dedup_batch mes (registos_validos raws)).duplicados_por_empresa = []
      ∧ outrosRelatos = false)) :
    (importar_timings_apply ano mes clientes outrosRelatos raws td).1
      = setA (obter_ano_dict td ano).1 (toString ano)
          (applyAno mes clientes (dedup_batch mes (registos_validos raws))
            ((lookupA td (toString ano)).getD [])) := by
  have hinv := dedup_batch_inv mes (registos_validos raws)
    (registos_validos_prop raws)
  have hpos : ∀ r ∈ (dedup_batch mes (registos_validos raws)).unicos,
      0 < r.minutos := fun r hr => (hinv.1 r hr).1
  unfold importar_timings_apply
  rw [if_neg hcond]
  dsimp only
  rw [aplicar_bridge mes clientes ano _ _ _ _ hpos
    (by rw [lookupA_setA_self]; rfl)]
  rw [lookupA_setA_self]
  simp only [Option.getD_some]
  rw [setA_setA]
  rw [obter_ano_dict_snd]
  rfl

/-! ### C1: the import-apply step is idempotent -/

/-- C1.  For every batch of workbook records, year, month, client
registry and prior ledger, running the validate-dedup-zero-replay step
of `importar_timings` twice in succession yields exactly the same
ledger as running it once: the month replacement zeroes every touched
company before the unique facts are replayed, so monthly totals,
per-technician breakdowns, extras and deleted flags all coincide.  The
only hypothesis is that the target year slice of the prior ledger has
no duplicate company keys, which every Python dict satisfies. -/
theorem importar_timings_apply_idempotent (ano mes : Int)
    (clientes : List Cliente) (outrosRelatos : Bool)
    (raws : List RawRegisto) (td : TimingsDados)
    (hnd : (keyList ((lookupA td (toString ano)).getD [])).Nodup) :
    (importar_timings_apply ano mes clientes outrosRelatos raws
        (importar_timings_apply ano mes clientes outrosRelatos raws td).1).1
      = (importar_timings_apply ano mes clientes outrosRelatos raws td).1 := by
  by_cases hcond : (dedup_batch mes (registos_validos raws)).unicos = []
      ∧ (dedup_batch mes (registos_validos raws)).duplicados_por_empresa = []
      ∧ outrosRelatos = false
  · have h1 : importar_timings_apply ano mes clientes outrosRelatos raws td
        = (td, []) := by
      unfold importar_timings_apply
      rw [if_pos hcond]
    rw [h1]
    show (importar_timings_apply ano mes clientes outrosRelatos raws td).1 = td
    rw [h1]
  · have hinv := dedup_batch_inv mes (registos_validos raws)
      (registos_validos_prop raws)
    have hne1 := importar_apply_nonearly ano mes clientes outrosRelatos raws td hcond
    have hlook : lookupA
        (importar_timings_apply ano mes clientes outrosRelatos raws td).1
        (toString ano)
        = some (applyAno mes clientes (dedup_batch mes (registos_validos raws))
            ((lookupA td (toString ano)).getD [])) := by
      rw [hne1, lookupA_setA_self]
    have hne2 := importar_apply_nonearly ano mes clientes outrosRelatos raws
      (importar_timings_apply ano mes clientes outrosRelatos raws td).1 hcond
    rw [hne2, obter_ano_dict_fst_of_some _ _ _ hlook, hlook]
    simp only [Option.getD_some]
    rw [applyAno_idem mes clientes _ _ hinv hnd]
    rw [hne1, setA_setA]

/-- Witness for C1 at a concrete batch (one exact duplicate, a
soft-deleted prior entry for the same company under a different
spelling, and pre-existing data for the target month). -/
theorem importar_timings_apply_idempotent_witness :
    (keyList ((lookupA
        [("2025", [("Empresa X",
          (⟨[(1, 999)], 0, true, [("Pedro Fernandes", [(1, 999)])]⟩ : EmpresaRec))])]
        (toString (2025 : Int))).getD [])).Nodup
    ∧ (importar_timings_apply 2025 1 [] false
        [⟨"Empresa X, Lda.", "canonico", some "Pedro Fernandes", 120⟩,
         ⟨"Empresa X Lda", "canonico", some "Pedro Fernandes", 120⟩]
        (importar_timings_apply 2025 1 [] false
          [⟨"Empresa X, Lda.", "canonico", some "Pedro Fernandes", 120⟩,
           ⟨"Empresa X Lda", "canonico", some "Pedro Fernandes", 120⟩]
          [("2025", [("Empresa X",
            (⟨[(1, 999)], 0, true, [("Pedro Fernandes", [(1, 999)])]⟩ : EmpresaRec))])]).1).1
      = (importar_timings_apply 2025 1 [] false
          [⟨"Empresa X, Lda.", "canonico", some "Pedro Fernandes", 120⟩,
           ⟨"Empresa X Lda", "canonico", some "Pedro Fernandes", 120⟩]
          [("2025", [("Empresa X",
            (⟨[(1, 999)], 0, true, [("Pedro Fernandes", [(1, 999)])]⟩ : EmpresaRec))])]).1 :=
  ⟨by decide,
   importar_timings_apply_idempotent 2025 1 [] false
     [⟨"Empresa X, Lda.", "canonico", some "Pedro Fernandes", 120⟩,
      ⟨"Empresa X Lda", "canonico", some "Pedro Fernandes", 120⟩]
     [("2025", [("Empresa X",
       (⟨[(1, 999)], 0, true, [("Pedro Fernandes", [(1, 999)])]⟩ : EmpresaRec))])]
     (by decide)⟩

/-! ### C3: deduplication keeps exactly the first occurrence of each
identity -/

/-- The dedup identity of a record, when the record participates at all
(positive minutes, non-empty company key, usable technician
classification). -/
def chave_valida (mes : Int) (r : Registo) :
    Option (String × String × Int × Int) :=
  if r.minutos ≤ 0 then none
  else if r.empresa_norm = "" then none
  else (tecnico_chave r.tipo r.canonico).map
    (fun t => (r.empresa_norm, t, mes, r.minutos))

/-- Modelled from the spec: keep the first occurrence of every dedup
identity, and count the minutes of every later exact duplicate. -/
def dedup_spec (mes : Int) :
    List (String × String × Int × Int) → List Registo → List Registo × Int
  | _, [] => ([], 0)
  | vistos, r :: rs =>
    match chave_valida mes r with
    | none => dedup_spec mes vistos rs
    | some k =>
      if k ∈ vistos then
        let p := dedup_spec mes vistos rs
        (p.1, p.2 + r.minutos)
      else
        let p := dedup_spec mes (k :: vistos) rs
        (r :: p.1, p.2)

theorem dedup_fold_spec (mes : Int) :
    ∀ (rs : List Registo) (st : DedupState)
      (vistos : List (String × String × Int × Int)),
      (∀ k, k ∈ st.seen ↔ k ∈ vistos) →
      (rs.foldl (dedup_step mes) st).unicos
          = st.unicos ++ (dedup_spec mes vistos rs).1
      ∧ (rs.foldl (dedup_step mes) st).total_minutos_deduplicados
          = st.total_minutos_deduplicados + (dedup_spec mes vistos rs).2 := by
  intro rs
  induction rs with
  | nil =>
    intro st vistos _
    simp [dedup_spec]
  | cons r rest ih =>
    intro st vistos hsv
    rw [List.foldl_cons]
    by_cases hm : r.minutos ≤ 0
    · have hstep : dedup_step mes st r = st := by
        unfold dedup_step
        rw [if_pos hm]
      have hcv : chave_valida mes r = none := by
        unfold chave_valida
        rw [if_pos hm]
      rw [hstep]
      simp only [dedup_spec, hcv]
      exact ih st vistos hsv
    by_cases hn : r.empresa_norm = ""
    · have hstep : dedup_step mes st r = st := by
        unfold dedup_step
        rw [if_neg hm, if_pos hn]
      have hcv : chave_valida mes r = none := by
        unfold chave_valida
        rw [if_neg hm, if_pos hn]
      rw [hstep]
      simp only [dedup_spec, hcv]
      exact ih st vistos hsv
    cases htc : tecnico_chave r.tipo r.canonico with
    | none =>
      have hcv : chave_valida mes r = none := by
        unfold chave_valida
        rw [if_neg hm, if_neg hn, htc]
        rfl
      have hstep : dedup_step mes st r =
          { st with empresa_display_por_norm :=
              (setdefaultA st.empresa_display_por_norm r.empresa_norm
                (if r.empresa = "" then r.empresa_norm else r.empresa)) } := by
        unfold dedup_step
        rw [if_neg hm, if_neg hn]
        dsimp only
        rw [htc]
      obtain ⟨hu, ht⟩ := ih (dedup_step mes st r) vistos
        (by rw [hstep]; exact hsv)
      simp only [dedup_spec, hcv]
      constructor
      · rw [hu, hstep]
      · rw [ht, hstep]
    | some tchave =>
      have hcv : chave_valida mes r
          = some (r.empresa_norm, tchave, mes, r.minutos) := by
        unfold chave_valida
        rw [if_neg hm, if_neg hn, htc]
        rfl
      by_cases hseen : (r.empresa_norm, tchave, mes, r.minutos) ∈ st.seen
      · have hstep : dedup_step mes st r =
            { st with
              empresa_display_por_norm :=
                (setdefaultA st.empresa_display_por_norm r.empresa_norm
                  (if r.empresa = "" then r.empresa_norm else r.empresa))
              duplicados_por_empresa :=
                (bumpA st.duplicados_por_empresa
                  ((lookupA (setdefaultA st.empresa_display_por_norm
                      r.empresa_norm
                      (if r.empresa = "" then r.empresa_norm else r.empresa))
                    r.empresa_norm).getD
                    (if r.empresa = "" then r.empresa_norm else r.empresa))
                  r.minutos)
              total_minutos_deduplicados :=
                (st.total_minutos_deduplicados + r.minutos) } := by
          unfold dedup_step
          rw [if_neg hm, if_neg hn]
          dsimp only
          rw [htc]
          dsimp only
          rw [if_pos hseen]
        obtain ⟨hu, ht⟩ := ih (dedup_step mes st r) vistos
          (by rw [hstep]; exact hsv)
        simp only [dedup_spec, hcv]
        rw [if_pos ((hsv _).1 hseen)]
        constructor
        · rw [hu, hstep]
        · rw [ht, hstep]
          show st.total_minutos_deduplicados + r.minutos + _ = _
          omega
      · have hstep : dedup_step mes st r =
            { st with
              empresa_display_por_norm :=
                (setdefaultA st.empresa_display_por_norm r.empresa_norm
                  (if r.empresa = "" then r.empresa_norm else r.empresa))
              seen := (st.seen ++ [(r.empresa_norm, tchave, mes, r.minutos)])
              unicos := (st.unicos ++ [r])
              empresas_afetadas_norm :=
                (if r.empresa_norm ∈ st.empresas_afetadas_norm then
                  st.empresas_afetadas_norm
                else st.empresas_afetadas_norm ++ [r.empresa_norm]) } := by
          unfold dedup_step
          rw [if_neg hm, if_neg hn]
          dsimp only
          rw [htc]
          dsimp only
          rw [if_neg hseen]
        have hsv' : ∀ k, k ∈ st.seen ++ [(r.empresa_norm, tchave, mes, r.minutos)]
            ↔ k ∈ (r.empresa_norm, tchave, mes, r.minutos) :: vistos := by
          intro k
          rw [List.mem_append, List.mem_singleton, List.mem_cons, hsv k]
          tauto
        obtain ⟨hu, ht⟩ := ih (dedup_step mes st r)
          ((r.empresa_norm, tchave, mes, r.minutos) :: vistos)
          (by rw [hstep]; exact hsv')
        simp only [dedup_spec, hcv]
        rw [if_neg (fun hv => hseen ((hsv _).2 hv))]
        constructor
        · rw [hu, hstep]
          show (st.unicos ++ [r]) ++ _ = _
          rw [List.append_assoc]
          rfl
        · rw [ht, hstep]

/-- C3.  A fact participates in deduplication under the identity
`(normalised company key, technician classification, month, minutes)`;
only the first occurrence of each identity survives to be applied, every
later exact duplicate is counted into the duplicates total instead, and
two facts that differ in their minute value never share an identity, so
a two-record batch with the same company and technician but different
minutes is applied in full. -/
theorem dedup_first_occurrence (mes : Int) (rs : List Registo) :
    (dedup_batch mes rs).unicos = (dedup_spec mes [] rs).1
    ∧ (dedup_batch mes rs).total_minutos_deduplicados
        = (dedup_spec mes [] rs).2
    ∧ (∀ (r₁ r₂ : Registo) (k₁ k₂ : String × String × Int × Int),
        chave_valida mes r₁ = some k₁ → chave_valida mes r₂ = some k₂ →
        r₁.minutos ≠ r₂.minutos → k₁ ≠ k₂)
    ∧ (∀ (r₁ r₂ : Registo) (k₁ k₂ : String × String × Int × Int),
        chave_valida mes r₁ = some k₁ → chave_valida mes r₂ = some k₂ →
        k₁ ≠ k₂ → (dedup_batch mes [r₁, r₂]).unicos = [r₁, r₂]) := by
  have hkey : ∀ (r : Registo) (k : String × String × Int × Int),
      chave_valida mes r = some k → k.2.2.2 = r.minutos := by
    intro r k hk
    unfold chave_valida at hk
    by_cases hm : r.minutos ≤ 0
    · rw [if_pos hm] at hk
      exact absurd hk (by simp)
    rw [if_neg hm] at hk
    by_cases hn : r.empresa_norm = ""
    · rw [if_pos hn] at hk
      exact absurd hk (by simp)
    rw [if_neg hn] at hk
    cases htc : tecnico_chave r.tipo r.canonico with
    | none => rw [htc] at hk; exact absurd hk (by simp)
    | some t =>
      rw [htc] at hk
      simp only [Option.map_some', Option.some.injEq] at hk
      rw [← hk]
  obtain ⟨hu, ht⟩ := dedup_fold_spec mes rs dedupInit [] (by simp [dedupInit])
  refine ⟨by simpa [dedupInit] using hu, by simpa [dedupInit] using ht, ?_, ?_⟩
  · intro r₁ r₂ k₁ k₂ h₁ h₂ hne heq
    exact hne (by rw [← hkey r₁ k₁ h₁, heq, hkey r₂ k₂ h₂])
  · intro r₁ r₂ k₁ k₂ h₁ h₂ hne
    obtain ⟨hu2, _⟩ := dedup_fold_spec mes [r₁, r₂] dedupInit [] (by simp [dedupInit])
    have hspec : (dedup_spec mes [] [r₁, r₂]).1 = [r₁, r₂] := by
      unfold dedup_spec
      rw [h₁]
      dsimp only
      rw [if_neg (by simp)]
      unfold dedup_spec
      rw [h₂]
      dsimp only
      rw [if_neg (by simpa using fun h => hne h.symm)]
      rfl
    unfold dedup_batch
    rw [hu2, hspec]
    simp [dedupInit]

/-- Witness for C3: the batch from the spec scenario, where the fact
`(Company X, Technician A, 120 minutes)` appears twice and a third fact
differs only in its minutes. -/
theorem dedup_first_occurrence_witness :
    chave_valida 1 ⟨"Empresa X", "empresa x", "canonico", some "Pedro Fernandes", 120⟩
        = some ("empresa x", norm_nome_forte "Pedro Fernandes", 1, 120)
    ∧ chave_valida 1 ⟨"Empresa X", "empresa x", "canonico", some "Pedro Fernandes", 60⟩
        = some ("empresa x", norm_nome_forte "Pedro Fernandes", 1, 60)
    ∧ (dedup_batch 1
        [⟨"Empresa X", "empresa x", "canonico", some "Pedro Fernandes", 120⟩,
         ⟨"Empresa X", "empresa x", "canonico", some "Pedro Fernandes", 60⟩]).unicos
      = [⟨"Empresa X", "empresa x", "canonico", some "Pedro Fernandes", 120⟩,
         ⟨"Empresa X", "empresa x", "canonico", some "Pedro Fernandes", 60⟩]
    ∧ (dedup_batch 1
        [⟨"Empresa X", "empresa x", "canonico", some "Pedro Fernandes", 120⟩,
         ⟨"Empresa X", "empresa x", "canonico", some "Pedro Fernandes", 120⟩]).total_minutos_deduplicados
      = 120 :=
  ⟨by decide, by decide,
   (dedup_first_occurrence 1 []).2.2.2
     ⟨"Empresa X", "empresa x", "canonico", some "Pedro Fernandes", 120⟩
     ⟨"Empresa X", "empresa x", "canonico", some "Pedro Fernandes", 60⟩
     ("empresa x", norm_nome_forte "Pedro Fernandes", 1, 120)
     ("empresa x", norm_nome_forte "Pedro Fernandes", 1, 60)
     (by decide) (by decide) (by decide),
   by decide⟩

/-! ### C2 and C10: the save guard -/

/-- C2.  Save guard: when the previously persisted ledger is readable
with total minute volume `T > 0` and the in-memory total is below half
of `T`, the save writes nothing and reports failure; in every other
readable-disk case, and whenever the old file is missing or unreadable,
the write proceeds and replaces the disk contents. -/
theorem guardar_guard_spec (memory old : TimingsDados) :
    (0 < total_minutos_timings old
      ∧ 2 * total_minutos_timings memory < total_minutos_timings old →
      guardar_timings_para_ficheiro memory (some old) = (false, some old))
    ∧ (¬(0 < total_minutos_timings old
        ∧ 2 * total_minutos_timings memory < total_minutos_timings old) →
      guardar_timings_para_ficheiro memory (some old) = (true, some memory))
    ∧ guardar_timings_para_ficheiro memory none = (true, some memory) := by
  refine ⟨fun h => ?_, fun h => ?_, rfl⟩
  · simp only [guardar_timings_para_ficheiro, Option.map_some']
    rw [if_pos ⟨h.1, h.2⟩]
  · simp only [guardar_timings_para_ficheiro, Option.map_some']
    rw [if_neg h]

/-- Witness for C2 at a concrete ledger: the old file holds 100 minutes,
the new ledger 40, so the save is rejected and the disk keeps the old
contents. -/
theorem guardar_guard_spec_witness :
    (0 < total_minutos_timings
        [("2025", [("Empresa X", ⟨[(1, 100)], 0, false, []⟩)])]
      ∧ 2 * total_minutos_timings
          [("2025", [("Empresa X", ⟨[(1, 40)], 0, false, []⟩)])]
        < total_minutos_timings
          [("2025", [("Empresa X", ⟨[(1, 100)], 0, false, []⟩)])])
    ∧ guardar_timings_para_ficheiro
        [("2025", [("Empresa X", ⟨[(1, 40)], 0, false, []⟩)])]
        (some [("2025", [("Empresa X", ⟨[(1, 100)], 0, false, []⟩)])])
      = (false, some [("2025", [("Empresa X", ⟨[(1, 100)], 0, false, []⟩)])]) :=
  ⟨by decide,
   (guardar_guard_spec
      [("2025", [("Empresa X", ⟨[(1, 40)], 0, false, []⟩)])]
      [("2025", [("Empresa X", ⟨[(1, 100)], 0, false, []⟩)])]).1 (by decide)⟩

/-- C10.  When the persisted file is readable with positive total, the
confirmed clear-all empties the in-memory ledger, but the save that
follows is always rejected by the 50 percent guard, so the disk keeps
its previous contents and the save reports failure. -/
theorem limpar_never_persists (memory old : TimingsDados)
    (h : 0 < total_minutos_timings old) :
    limpar_timings "APAGAR" memory (some old) =
      some ([], (false, some old)) := by
  have hz : total_minutos_timings ([] : TimingsDados) = 0 := rfl
  simp only [limpar_timings, ne_eq, not_true_eq_false, if_false,
    guardar_timings_para_ficheiro, Option.map_some', hz]
  rw [if_pos ⟨h, by omega⟩]

/-- Witness for C10 with a concrete on-disk ledger of 60 minutes. -/
theorem limpar_never_persists_witness :
    0 < total_minutos_timings
        [("2025", [("Empresa X", ⟨[(1, 60)], 0, false, []⟩)])]
    ∧ limpar_timings "APAGAR" []
        (some [("2025", [("Empresa X", ⟨[(1, 60)], 0, false, []⟩)])]) =
      some ([], (false,
        some [("2025", [("Empresa X", ⟨[(1, 60)], 0, false, []⟩)])])) :=
  ⟨by decide,
   limpar_never_persists []
     [("2025", [("Empresa X", ⟨[(1, 60)], 0, false, []⟩)])] (by decide)⟩

/-! ### C9: no-op on non-positive minutes, reactivation on positive -/

/-- C9.  Adding non-positive minutes through `_adicionar_tempo_empresa`
leaves the ledger, including every deleted flag, unchanged; adding
positive minutes leaves the touched company with a record whose deleted
flag is cleared. -/
theorem adicionar_tempo_empresa_reactivates (ano mes : Int)
    (empresa : String) (minutos : Int) (tecnico : Option String)
    (td : TimingsDados) :
    (minutos ≤ 0 →
      adicionar_tempo_empresa ano mes empresa minutos tecnico td = td)
    ∧ (0 < minutos →
      ((lookupA ((lookupA
          (adicionar_tempo_empresa ano mes empresa minutos tecnico td)
          (toString ano)).getD []) empresa).map EmpresaRec.apagado)
        = some false) := by
  constructor
  · intro h
    simp only [adicionar_tempo_empresa]
    rw [if_pos h]
  · intro h
    simp only [adicionar_tempo_empresa]
    rw [if_neg (by omega)]
    rw [lookupA_setA_self]
    simp only [Option.getD_some, lookupA_setA_self, Option.map_some']
    cases tecnico with
    | none => rfl
    | some t =>
      by_cases ht : t = ""
      · simp [ht]
      · simp [ht]

/-- Witness for C9: a soft-deleted company given 0 minutes stays
deleted and untouched, and given 30 minutes comes back with the deleted
flag cleared. -/
theorem adicionar_tempo_empresa_reactivates_witness :
    adicionar_tempo_empresa 2025 1 "Empresa Y" 0 none
        [("2025", [("Empresa Y", ⟨[], 0, true, []⟩)])]
      = [("2025", [("Empresa Y", ⟨[], 0, true, []⟩)])]
    ∧ ((lookupA ((lookupA
        (adicionar_tempo_empresa 2025 1 "Empresa Y" 30 none
          [("2025", [("Empresa Y", ⟨[], 0, true, []⟩)])])
        (toString (2025 : Int))).getD []) "Empresa Y").map EmpresaRec.apagado)
      = some false :=
  ⟨(adicionar_tempo_empresa_reactivates 2025 1 "Empresa Y" 0 none
      [("2025", [("Empresa Y", ⟨[], 0, true, []⟩)])]).1 (by decide),
   (adicionar_tempo_empresa_reactivates 2025 1 "Empresa Y" 30 none
      [("2025", [("Empresa Y", ⟨[], 0, true, []⟩)])]).2 (by decide)⟩

/-! ### C7: the armando special case -/

/-- The company record stored for `empresa` under year `ano`. -/
def registoEmpresa (td : TimingsDados) (ano : Int) (empresa : String) :
    EmpresaRec :=
  (lookupA ((lookupA td (toString ano)).getD []) empresa).getD defaultEmpresaRec

/-- `empresa_display = registo.get("empresa") or empresa_norm`. -/
def empresaDisplayRegisto (r : Registo) : String :=
  if r.empresa = "" then r.empresa_norm else r.empresa

/-- `empresa_nome = empresa_nome_para_inserir.get(empresa_norm, empresa_display)`. -/
def empresaNomeRegisto (mapa : List (String × String)) (r : Registo) : String :=
  (lookupA mapa r.empresa_norm).getD (empresaDisplayRegisto r)

theorem tecnicoInferidoDoCliente_ne_empty (traw t : String)
    (h : tecnicoInferidoDoCliente traw = some t) : t ≠ "" := by
  simp only [tecnicoInferidoDoCliente] at h
  split at h
  · rename_i c hres
    by_cases hc : c = ""
    · rw [if_pos hc] at h
      by_cases hs : String.mk (pyStrip traw.data) = ""
      · rw [if_pos hs] at h; exact absurd h (by simp)
      · rw [if_neg hs] at h
        injection h with h'
        rw [← h']; exact hs
    · rw [if_neg hc] at h
      injection h with h'
      rw [← h']; exact hc
  · by_cases hs : String.mk (pyStrip traw.data) = ""
    · rw [if_pos hs] at h; exact absurd h (by simp)
    · rw [if_neg hs] at h
      injection h with h'
      rw [← h']; exact hs

theorem tecnicoInferidoScan_ne_empty (cs : List Cliente) (alvo t : String)
    (h : tecnicoInferidoScan cs alvo = some t) : t ≠ "" := by
  induction cs with
  | nil => exact absurd h (by simp [tecnicoInferidoScan])
  | cons c rest ih =>
    unfold tecnicoInferidoScan at h
    split at h
    · exact ih h
    · split at h
      · exact ih h
      · split at h
        · exact absurd h (by simp)
        · rename_i traw horf
          exact tecnicoInferidoDoCliente_ne_empty traw t h

theorem tecnico_inferido_ne_empty (clientes : List Cliente) (n t : String)
    (h : tecnico_inferido_empresa clientes n = some t) : t ≠ "" := by
  simp only [tecnico_inferido_empresa] at h
  split at h
  · exact absurd h (by simp)
  · split at h
    · exact absurd h (by simp)
    · exact tecnicoInferidoScan_ne_empty clientes _ t h

theorem tecnico_final_armando_some (clientes : List Cliente) (r : Registo)
    (t : String) (harm : r.tipo = "armando")
    (hinf : tecnico_inferido_empresa clientes r.empresa_norm = some t) :
    tecnico_final_registo clientes r = (some t, false) := by
  unfold tecnico_final_registo
  rw [harm, if_neg (by decide), if_pos rfl, hinf]

theorem tecnico_final_armando_none (clientes : List Cliente) (r : Registo)
    (harm : r.tipo = "armando")
    (hinf : tecnico_inferido_empresa clientes r.empresa_norm = none) :
    tecnico_final_registo clientes r = (none, true) := by
  unfold tecnico_final_registo
  rw [harm, if_neg (by decide), if_pos rfl, hinf]

theorem aplicar_singleton (ano mes : Int) (clientes : List Cliente)
    (mapa : List (String × String)) (r : Registo) (td : TimingsDados)
    (asi : List (String × Int)) :
    aplicar_registos ano mes clientes mapa [r] td asi
      = (adicionar_tempo_empresa ano mes (empresaNomeRegisto mapa r)
           r.minutos (tecnico_final_registo clientes r).1 td,
         if (tecnico_final_registo clientes r).2
         then bumpA asi (empresaDisplayRegisto r) r.minutos else asi) := rfl

theorem adicionar_registoEmpresa_some (ano mes : Int) (empresa : String)
    (minutos : Int) (t : String) (td : TimingsDados)
    (hpos : 0 < minutos) (ht : t ≠ "") :
    lookupA (registoEmpresa
        (adicionar_tempo_empresa ano mes empresa minutos (some t) td)
        ano empresa).por_tecnico (canonical_tecnico_nome (some t))
      = some (setA
          ((lookupA (registoEmpresa td ano empresa).por_tecnico
             (canonical_tecnico_nome (some t))).getD [])
          mes
          (((lookupA ((lookupA (registoEmpresa td ano empresa).por_tecnico
               (canonical_tecnico_nome (some t))).getD []) mes).getD 0)
            + minutos)) := by
  simp only [adicionar_tempo_empresa]
  rw [if_neg (by omega), if_neg ht]
  simp only [registoEmpresa, lookupA_setA_self, Option.getD_some,
    obter_ano_dict_snd]

theorem adicionar_registoEmpresa_none (ano mes : Int) (empresa : String)
    (minutos : Int) (td : TimingsDados) (hpos : 0 < minutos) :
    (registoEmpresa
        (adicionar_tempo_empresa ano mes empresa minutos none td)
        ano empresa).por_tecnico
      = (registoEmpresa td ano empresa).por_tecnico
    ∧ lookupA (registoEmpresa
        (adicionar_tempo_empresa ano mes empresa minutos none td)
        ano empresa).meses mes
      = some (((lookupA (registoEmpresa td ano empresa).meses mes).getD 0)
          + minutos) := by
  simp only [adicionar_tempo_empresa]
  rw [if_neg (by omega)]
  simp only [registoEmpresa, lookupA_setA_self, Option.getD_some,
    obter_ano_dict_snd]
  exact ⟨trivial, trivial⟩

/-- C7.  A fact whose technician resolved to the armando marker: when
the client registry records a technician for the company, the minutes
are attributed under that inferred technician's canonical identity and
nothing is reported; when inference fails, the minutes land in the
`armando_sem_inferido` report, the per-technician breakdown is left
untouched (in particular nothing is attributed to the literal name),
and the aggregate month still receives the minutes — they are not
dropped. -/
theorem armando_inference_and_report (ano mes : Int)
    (clientes : List Cliente) (mapa : List (String × String))
    (r : Registo) (td : TimingsDados)
    (harm : r.tipo = "armando") (hpos : 0 < r.minutos) :
    (∀ t, tecnico_inferido_empresa clientes r.empresa_norm = some t →
      t ≠ ""
      ∧ (aplicar_registos ano mes clientes mapa [r] td []).2 = []
      ∧ lookupA (registoEmpresa
            (aplicar_registos ano mes clientes mapa [r] td []).1
            ano (empresaNomeRegisto mapa r)).por_tecnico
            (canonical_tecnico_nome (some t))
          = some (setA
              ((lookupA (registoEmpresa td ano
                  (empresaNomeRegisto mapa r)).por_tecnico
                 (canonical_tecnico_nome (some t))).getD [])
              mes
              (((lookupA ((lookupA (registoEmpresa td ano
                    (empresaNomeRegisto mapa r)).por_tecnico
                   (canonical_tecnico_nome (some t))).getD []) mes).getD 0)
                + r.minutos)))
    ∧ (tecnico_inferido_empresa clientes r.empresa_norm = none →
      (aplicar_registos ano mes clientes mapa [r] td []).2
          = [(empresaDisplayRegisto r, r.minutos)]
      ∧ (registoEmpresa
            (aplicar_registos ano mes clientes mapa [r] td []).1
            ano (empresaNomeRegisto mapa r)).por_tecnico
          = (registoEmpresa td ano (empresaNomeRegisto mapa r)).por_tecnico
      ∧ lookupA (registoEmpresa
            (aplicar_registos ano mes clientes mapa [r] td []).1
            ano (empresaNomeRegisto mapa r)).meses mes
          = some (((lookupA (registoEmpresa td ano
                (empresaNomeRegisto mapa r)).meses mes).getD 0)
              + r.minutos)) := by
  constructor
  · intro t hinf
    refine ⟨tecnico_inferido_ne_empty clientes r.empresa_norm t hinf, ?_, ?_⟩
    · rw [aplicar_singleton, tecnico_final_armando_some clientes r t harm hinf]
      simp
    · rw [aplicar_singleton, tecnico_final_armando_some clientes r t harm hinf]
      exact adicionar_registoEmpresa_some ano mes (empresaNomeRegisto mapa r)
        r.minutos t td hpos
        (tecnico_inferido_ne_empty clientes r.empresa_norm t hinf)
  · intro hinf
    have hn := adicionar_registoEmpresa_none ano mes (empresaNomeRegisto mapa r)
      r.minutos td hpos
    refine ⟨?_, ?_, ?_⟩
    · rw [aplicar_singleton, tecnico_final_armando_none clientes r harm hinf]
      simp [bumpA, lookupA, setA]
    · rw [aplicar_singleton, tecnico_final_armando_none clientes r harm hinf]
      exact hn.1
    · rw [aplicar_singleton, tecnico_final_armando_none clientes r harm hinf]
      exact hn.2

/-- A concrete armando-typed fact. -/
def c7Reg : Registo :=
  ⟨"Quinta Azul", "Quinta Azul", "armando", none, 60⟩

/-- A registry in which the company records the technician "Xyz Abc". -/
def c7Clientes : List Cliente :=
  [⟨some "Quinta Azul", none, none, none, some "Xyz Abc", none⟩]

/-- Witness for C7: with the registry above the 60 minutes land under
the inferred technician and nothing is reported; against an empty
registry they are reported, the per-technician maps stay untouched, and
the aggregate month still receives them. -/
theorem armando_inference_and_report_witness :
    (aplicar_registos 2025 1 c7Clientes [] [c7Reg] [] []).2 = []
    ∧ lookupA (registoEmpresa
          (aplicar_registos 2025 1 c7Clientes [] [c7Reg] [] []).1
          2025 (empresaNomeRegisto [] c7Reg)).por_tecnico
          (canonical_tecnico_nome (some "Xyz Abc"))
        = some (setA
            ((lookupA (registoEmpresa [] 2025
                (empresaNomeRegisto [] c7Reg)).por_tecnico
               (canonical_tecnico_nome (some "Xyz Abc"))).getD [])
            1
            (((lookupA ((lookupA (registoEmpresa [] 2025
                  (empresaNomeRegisto [] c7Reg)).por_tecnico
                 (canonical_tecnico_nome (some "Xyz Abc"))).getD []) 1).getD 0)
              + c7Reg.minutos))
    ∧ (aplicar_registos 2025 1 [] [] [c7Reg] [] []).2
        = [(empresaDisplayRegisto c7Reg, c7Reg.minutos)]
    ∧ (registoEmpresa (aplicar_registos 2025 1 [] [] [c7Reg] [] []).1
          2025 (empresaNomeRegisto [] c7Reg)).por_tecnico
        = (registoEmpresa [] 2025 (empresaNomeRegisto [] c7Reg)).por_tecnico
    ∧ lookupA (registoEmpresa (aplicar_registos 2025 1 [] [] [c7Reg] [] []).1
          2025 (empresaNomeRegisto [] c7Reg)).meses 1
        = some (((lookupA (registoEmpresa [] 2025
              (empresaNomeRegisto [] c7Reg)).meses 1).getD 0)
            + c7Reg.minutos) :=
  have hA := (armando_inference_and_report 2025 1 c7Clientes [] c7Reg []
    rfl (by decide)).1 "Xyz Abc" (by decide)
  have hB := (armando_inference_and_report 2025 1 [] [] c7Reg []
    rfl (by decide)).2 (by decide)
  ⟨hA.2.1, hA.2.2, hB.1, hB.2.1, hB.2.2⟩

/-! ### C8: the legacy workload sheet (`_processar_sheet_workload`) -/

def asciiUpperChar (c : Char) : Char :=
  if 'a' ≤ c ∧ c ≤ 'z' then Char.ofNat (c.toNat - 32) else c

/-- `str.upper()` on the ASCII range (the keywords compared against are
all ASCII). -/
def pyUpper (s : String) : String :=
  String.mk (s.data.map asciiUpperChar)

/-- The state threaded through `_processar_sheet_workload`: the output
lists, the three report dicts, and the open company block. -/
structure WorkloadState where
  registos : List (String × String × Option String × Int)
  totais_fallback : List (String × Int)
  invalidos : List (String × Int)
  ignorados_por_empresa : List (String × Int)
  resumos_ignorados_por_empresa : List (String × Int)
  empresa_atual : Option String
  resumo_atual_min : Int
  registos_empresa : List (String × String × Option String × Int)
deriving DecidableEq

/-- `finalizar_empresa`: close the open company block.  Per-technician
rows, when present, are flushed to `registos` and a positive inline
total goes to the ignored reports; with no rows a positive inline total
goes to `totais_fallback`.  The block state is then reset. -/
def finalizar_empresa (st : WorkloadState) : WorkloadState :=
  match st.empresa_atual with
  | none => st
  | some emp =>
    if emp = "" then st
    else
      let st1 :=
        if st.registos_empresa ≠ [] then
          let st2 :=
            if 0 < st.resumo_atual_min then
              { st with
                ignorados_por_empresa :=
                  bumpA st.ignorados_por_empresa emp st.resumo_atual_min,
                resumos_ignorados_por_empresa :=
                  bumpA st.resumos_ignorados_por_empresa emp st.resumo_atual_min }
            else st
          { st2 with registos := st2.registos ++ st2.registos_empresa }
        else if 0 < st.resumo_atual_min then
          { st with totais_fallback :=
              (bumpA st.totais_fallback emp st.resumo_atual_min) }
        else st
      { st1 with empresa_atual := none, resumo_atual_min := 0,
                 registos_empresa := [] }

/-- The header/total lines skipped by the row loop. -/
def linhaIgnorada (textoStrip : String) : Bool :=
  pyUpper textoStrip = "EMPRESA" || pyUpper textoStrip = "TOTAL"
    || is_linha_total textoStrip
    || containsSub (pyUpper textoStrip).data "MAPA DE TEMPO TRABALHADO".data

/-- One row of the loop: `row.1` is column A (`none` for an empty
cell), `row.2` the duration cell as text. -/
def processar_row (st : WorkloadState) (row : Option String × String) :
    WorkloadState :=
  match row.1 with
  | none => st
  | some texto =>
    let textoStrip := String.mk (pyStrip texto.data)
    if textoStrip = "" then st
    else if linhaIgnorada textoStrip then st
    else if texto.data.take 4 = [' ', ' ', ' ', ' '] then
      match st.empresa_atual with
      | none => st
      | some emp =>
        if emp = "" then st else
        let minutos := parse_tempo_para_minutos row.2
        if minutos ≤ 0 then st
        else
          let rc := resolver_tecnico textoStrip
          if rc.1 = "desconhecido" then
            { st with
              invalidos := bumpA st.invalidos textoStrip minutos,
              ignorados_por_empresa :=
                bumpA st.ignorados_por_empresa emp minutos }
          else
            { st with registos_empresa :=
                st.registos_empresa ++ [(emp, rc.1, rc.2, minutos)] }
    else
      let st' := finalizar_empresa st
      { st' with empresa_atual := some textoStrip,
                 resumo_atual_min := parse_tempo_para_minutos row.2 }

def wlInit : WorkloadState := ⟨[], [], [], [], [], none, 0, []⟩

/-- `_processar_sheet_workload`: fold the rows, then close the last
block. -/
def processar_sheet_workload (rows : List (Option String × String)) :
    WorkloadState :=
  finalizar_empresa (rows.foldl processar_row wlInit)

/-- C8.  Closing a company block: with at least one per-technician row
the rows are appended to the facts, the fallback dict is untouched and
a positive inline total is added to both ignored reports (a
non-positive one to neither); with no per-technician rows a positive
inline total becomes a fallback entry for the company — carrying no
technician — while facts and ignored reports stay unchanged.  The
block state is reset either way. -/
theorem workload_block_closing (st : WorkloadState) (emp : String)
    (hemp : st.empresa_atual = some emp) (hne : emp ≠ "") :
    (st.registos_empresa ≠ [] →
      (finalizar_empresa st).registos = st.registos ++ st.registos_empresa
      ∧ (finalizar_empresa st).totais_fallback = st.totais_fallback
      ∧ (0 < st.resumo_atual_min →
          (finalizar_empresa st).resumos_ignorados_por_empresa
            = bumpA st.resumos_ignorados_por_empresa emp st.resumo_atual_min
          ∧ (finalizar_empresa st).ignorados_por_empresa
            = bumpA st.ignorados_por_empresa emp st.resumo_atual_min)
      ∧ (st.resumo_atual_min ≤ 0 →
          (finalizar_empresa st).resumos_ignorados_por_empresa
            = st.resumos_ignorados_por_empresa
          ∧ (finalizar_empresa st).ignorados_por_empresa
            = st.ignorados_por_empresa))
    ∧ (st.registos_empresa = [] → 0 < st.resumo_atual_min →
      (finalizar_empresa st).totais_fallback
          = bumpA st.totais_fallback emp st.resumo_atual_min
      ∧ (finalizar_empresa st).registos = st.registos
      ∧ (finalizar_empresa st).resumos_ignorados_por_empresa
          = st.resumos_ignorados_por_empresa
      ∧ (finalizar_empresa st).ignorados_por_empresa
          = st.ignorados_por_empresa)
    ∧ (finalizar_empresa st).empresa_atual = none
    ∧ (finalizar_empresa st).resumo_atual_min = 0
    ∧ (finalizar_empresa st).registos_empresa = [] := by
  have hfe : ∀ (P : WorkloadState → Prop),
      P (finalizar_empresa st) ↔
      P (let st1 :=
          if st.registos_empresa ≠ [] then
            let st2 :=
              if 0 < st.resumo_atual_min then
                { st with
                  ignorados_por_empresa :=
                    bumpA st.ignorados_por_empresa emp st.resumo_atual_min,
                  resumos_ignorados_por_empresa :=
                    bumpA st.resumos_ignorados_por_empresa emp
                      st.resumo_atual_min }
              else st
            { st2 with registos := st2.registos ++ st2.registos_empresa }
          else if 0 < st.resumo_atual_min then
            { st with totais_fallback :=
                (bumpA st.totais_fallback emp st.resumo_atual_min) }
          else st
         { st1 with empresa_atual := none, resumo_atual_min := 0,
                    registos_empresa := [] }) := by
    intro P
    unfold finalizar_empresa
    rw [hemp]
    dsimp only
    rw [if_neg hne]
  refine ⟨?_, ?_, ?_, ?_, ?_⟩
  · intro hrows
    refine ⟨?_, ?_, ?_, ?_⟩
    · rw [hfe (fun s => s.registos = st.registos ++ st.registos_empresa)]
      simp only [if_pos hrows]
      by_cases hres : 0 < st.resumo_atual_min
      · rw [if_pos hres]
      · rw [if_neg hres]
    · rw [hfe (fun s => s.totais_fallback = st.totais_fallback)]
      simp only [if_pos hrows]
      by_cases hres : 0 < st.resumo_atual_min
      · rw [if_pos hres]
      · rw [if_neg hres]
    · intro hres
      rw [hfe (fun s => s.resumos_ignorados_por_empresa
            = bumpA st.resumos_ignorados_por_empresa emp st.resumo_atual_min
          ∧ s.ignorados_por_empresa
            = bumpA st.ignorados_por_empresa emp st.resumo_atual_min)]
      simp only [if_pos hrows, if_pos hres]
      exact ⟨trivial, trivial⟩
    · intro hres
      rw [hfe (fun s => s.resumos_ignorados_por_empresa
            = st.resumos_ignorados_por_empresa
          ∧ s.ignorados_por_empresa = st.ignorados_por_empresa)]
      simp only [if_pos hrows, if_neg (by omega : ¬ 0 < st.resumo_atual_min)]
      exact ⟨trivial, trivial⟩
  · intro hrows hres
    rw [hfe (fun s => s.totais_fallback
          = bumpA st.totais_fallback emp st.resumo_atual_min
        ∧ s.registos = st.registos
        ∧ s.resumos_ignorados_por_empresa = st.resumos_ignorados_por_empresa
        ∧ s.ignorados_por_empresa = st.ignorados_por_empresa)]
    simp only [if_neg (by simp [hrows] : ¬ st.registos_empresa ≠ []),
      if_pos hres]
    exact ⟨trivial, trivial, trivial, trivial⟩
  · rw [hfe (fun s => s.empresa_atual = none)]
  · rw [hfe (fun s => s.resumo_atual_min = 0)]
  · rw [hfe (fun s => s.registos_empresa = [])]

/-- A block with one per-technician row and a positive inline total. -/
def c8St1 : WorkloadState :=
  ⟨[], [], [], [], [], some "Alfa", 30, [("Alfa", "canonico", some "Pedro", 60)]⟩

/-- A block with no per-technician rows and a positive inline total. -/
def c8St2 : WorkloadState :=
  ⟨[], [], [], [], [], some "Beta", 45, []⟩

/-- Witness for C8: closing the first block flushes its row and sends
the 30-minute inline total to the ignored-summary report; closing the
second turns its 45 minutes into a fallback entry; both reset the
block. -/
theorem workload_block_closing_witness :
    ((finalizar_empresa c8St1).registos
        = c8St1.registos ++ c8St1.registos_empresa
      ∧ (finalizar_empresa c8St1).totais_fallback = c8St1.totais_fallback
      ∧ (finalizar_empresa c8St1).resumos_ignorados_por_empresa
          = bumpA c8St1.resumos_ignorados_por_empresa "Alfa"
              c8St1.resumo_atual_min
      ∧ (finalizar_empresa c8St1).ignorados_por_empresa
          = bumpA c8St1.ignorados_por_empresa "Alfa" c8St1.resumo_atual_min)
    ∧ ((finalizar_empresa c8St2).totais_fallback
          = bumpA c8St2.totais_fallback "Beta" c8St2.resumo_atual_min
      ∧ (finalizar_empresa c8St2).registos = c8St2.registos
      ∧ (finalizar_empresa c8St2).resumos_ignorados_por_empresa
          = c8St2.resumos_ignorados_por_empresa
      ∧ (finalizar_empresa c8St2).ignorados_por_empresa
          = c8St2.ignorados_por_empresa)
    ∧ (finalizar_empresa c8St2).empresa_atual = none
    ∧ (finalizar_empresa c8St2).resumo_atual_min = 0
    ∧ (finalizar_empresa c8St2).registos_empresa = [] :=
  have h1 := workload_block_closing c8St1 "Alfa" rfl (by decide)
  have h2 := workload_block_closing c8St2 "Beta" rfl (by decide)
  have hA := h1.1 (by decide)
  have hB := (h2.2.1 (by decide) (by decide))
  ⟨⟨hA.1, hA.2.1, (hA.2.2.1 (by decide)).1, (hA.2.2.1 (by decide)).2⟩,
   ⟨hB.1, hB.2.1, hB.2.2.1, hB.2.2.2⟩,
   h2.2.2.1, h2.2.2.2.1, h2.2.2.2.2⟩

/-! ### C5 and C6: the company matcher (`relacao_tecnicos.py`)

`difflib.SequenceMatcher(None, a, b).ratio()` is abstracted as a score
oracle `score : String → String → Rat`: tier-2 candidacy does not
depend on it, and the matcher theorems hold for an arbitrary oracle. -/

def STOP_TOKENS : List String :=
  ["LDA", "LTD", "LTDA", "SA", "SOCIEDADE", "UNIPESSOAL", "UNIP", "E",
   "ME", "LDA.", "LDA,", "LDA;", "UNIPESSOAL,", "UNIPESSOAL;"]

/-- `normalizar_nome`: strip, drop accents (NFD minus combining
marks), uppercase, replace every run outside `A-Z0-9` by one space. -/
def normalizar_nome (valor : String) : String :=
  let cs := (pyStrip valor.data).map (fun c => (stripAccentChar c).toUpper)
  let cs := cs.map (fun c =>
    if ('A' ≤ c ∧ c ≤ 'Z') ∨ ('0' ≤ c ∧ c ≤ '9') then c else ' ')
  joinSpace (splitWsToks cs)

/-- `tokens_relevantes`: the whitespace tokens outside the stop list. -/
def tokens_relevantes (norm : String) : List String :=
  (splitWsToks norm.data).filter (fun t => t ≠ "" ∧ t ∉ STOP_TOKENS)

/-- First-insertion-order key accumulation (a Python dict's keys). -/
def addKeyOnce (ks : List String) (k : String) : List String :=
  if k ∈ ks then ks else ks ++ [k]

/-- `norm_keys` of `_construir_indice_timings`: the normalised names of
the non-deleted companies, first occurrence first, empties dropped. -/
def norm_keys_of (anoDict : AnoDict) : List String :=
  anoDict.foldl (fun ks p =>
    if p.2.apagado then ks else
    let n := normalizar_nome p.1
    if n = "" then ks else addKeyOnce ks n) []

/-- Set inclusion on token lists (`set(xs).issubset(set(ys))`). -/
def subsetTok (xs ys : List String) : Bool :=
  xs.all (fun t => ys.contains t)

def dedupFirst (xs : List String) : List String :=
  xs.foldl addKeyOnce []

/-- `len(nome_tokens & chave_tokens)`: the size of the token-set
intersection. -/
def overlapTok (xs ys : List String) : Nat :=
  ((dedupFirst xs).filter (fun t => ys.contains t)).length

/-- The tier-2 candidate list `candidatos_inclusao`, entries
`(chave_norm, ratio-for-tie-break, overlap)`; a key with no relevant
tokens is skipped, and the whole tier is skipped when the query has no
relevant tokens. -/
def candidatos_inclusao (score : String → String → Rat)
    (nomeNorm : String) (normKeys : List String) :
    List (String × Rat × Nat) :=
  if tokens_relevantes nomeNorm = [] then [] else
  normKeys.filterMap (fun chaveNorm =>
    if tokens_relevantes chaveNorm = [] then none else
    if subsetTok (tokens_relevantes nomeNorm) (tokens_relevantes chaveNorm)
        || subsetTok (tokens_relevantes chaveNorm) (tokens_relevantes nomeNorm)
    then some (chaveNorm, score nomeNorm chaveNorm,
          overlapTok (tokens_relevantes nomeNorm)
            (tokens_relevantes chaveNorm))
    else none)

/-- The Python sort key `(x[2], x[1], len(x[0]))` of a candidate. -/
def keyOf (x : String × Rat × Nat) : Nat × Rat × Nat :=
  (x.2.2, x.2.1, x.1.length)

/-- Strict lexicographic order on sort keys (Python tuple `<`). -/
def ltKey (u v : Nat × Rat × Nat) : Prop :=
  u.1 < v.1 ∨ (u.1 = v.1 ∧
    (u.2.1 < v.2.1 ∨ (u.2.1 = v.2.1 ∧ u.2.2 < v.2.2)))

instance ltKeyDec (u v : Nat × Rat × Nat) : Decidable (ltKey u v) :=
  inferInstanceAs (Decidable (u.1 < v.1 ∨ (u.1 = v.1 ∧
    (u.2.1 < v.2.1 ∨ (u.2.1 = v.2.1 ∧ u.2.2 < v.2.2)))))

/-- Candidate comparison under `max(..., key=...)`. -/
def candLt (b a : String × Rat × Nat) : Prop :=
  ltKey (keyOf b) (keyOf a)

instance candLtDec (b a : String × Rat × Nat) : Decidable (candLt b a) :=
  inferInstanceAs (Decidable (ltKey (keyOf b) (keyOf a)))

/-- Python `max` with a key: scan left to right, replace the current
maximum only on strict increase (the first maximum wins full ties). -/
def pyMax (c : String × Rat × Nat) (rest : List (String × Rat × Nat)) :
    String × Rat × Nat :=
  rest.foldl (fun b a => if candLt b a then a else b) c

/-- `max(candidatos_inclusao, key=...)[0]`, `none` on an empty list. -/
def escolher_chave : List (String × Rat × Nat) → Option String
  | [] => none
  | c :: rest => some (pyMax c rest).1

/-- Tier 2 of `match_timings` at the normalised-key level. -/
def match_tier2 (score : String → String → Rat) (nomeCliente : String)
    (anoDict : AnoDict) : Option String :=
  escolher_chave (candidatos_inclusao score (normalizar_nome nomeCliente)
    (norm_keys_of anoDict))

/-- Modelled from the spec: "a ledger key is a candidate exactly when,
after discarding stop-list tokens, the query's token set is a subset of
the key's token set or vice versa". -/
def candidato_spec (nomeNorm chaveNorm : String) : Bool :=
  subsetTok (tokens_relevantes nomeNorm) (tokens_relevantes chaveNorm)
    || subsetTok (tokens_relevantes chaveNorm) (tokens_relevantes nomeNorm)

theorem ltKey_irrefl (u : Nat × Rat × Nat) : ¬ ltKey u u := by
  rintro (h | ⟨-, h | ⟨-, h⟩⟩)
  · omega
  · exact lt_irrefl _ h
  · omega

theorem ltKey_trans {u v w : Nat × Rat × Nat} :
    ltKey u v → ltKey v w → ltKey u w := by
  rintro (h1 | ⟨e1, h1⟩) (h2 | ⟨e2, h2⟩)
  · exact Or.inl (by omega)
  · exact Or.inl (by omega)
  · exact Or.inl (by omega)
  · refine Or.inr ⟨by omega, ?_⟩
    rcases h1 with h1 | ⟨f1, h1⟩ <;> rcases h2 with h2 | ⟨f2, h2⟩
    · exact Or.inl (lt_trans h1 h2)
    · exact Or.inl (by rw [← f2]; exact h1)
    · exact Or.inl (by rw [f1]; exact h2)
    · exact Or.inr ⟨f1.trans f2, by omega⟩

theorem not_ltKey_iff (u v : Nat × Rat × Nat) :
    ¬ ltKey u v ↔ ltKey v u ∨ u = v := by
  constructor
  · intro h
    rcases lt_trichotomy u.1 v.1 with ho | ho | ho
    · exact absurd (Or.inl ho) h
    · rcases lt_trichotomy u.2.1 v.2.1 with hr | hr | hr
      · exact absurd (Or.inr ⟨ho, Or.inl hr⟩) h
      · rcases lt_trichotomy u.2.2 v.2.2 with hl | hl | hl
        · exact absurd (Or.inr ⟨ho, Or.inr ⟨hr, hl⟩⟩) h
        · exact Or.inr (Prod.ext ho (Prod.ext hr hl))
        · exact Or.inl (Or.inr ⟨ho.symm, Or.inr ⟨hr.symm, hl⟩⟩)
      · exact Or.inl (Or.inr ⟨ho.symm, Or.inl hr⟩)
    · exact Or.inl (Or.inl ho)
  · rintro (h | rfl) hlt
    · exact ltKey_irrefl u (ltKey_trans hlt h)
    · exact ltKey_irrefl u hlt

theorem ltKey_neg_trans {u v w : Nat × Rat × Nat}
    (h1 : ¬ ltKey u v) (h2 : ¬ ltKey v w) : ¬ ltKey u w := by
  rw [not_ltKey_iff] at h1 h2 ⊢
  rcases h1 with h1 | e1
  · rcases h2 with h2 | e2
    · exact Or.inl (ltKey_trans h2 h1)
    · exact e2 ▸ Or.inl h1
  · rw [e1]
    exact h2

theorem pyMax_spec (rest : List (String × Rat × Nat)) :
    ∀ c, pyMax c rest ∈ c :: rest
      ∧ ∀ x ∈ c :: rest, ¬ candLt (pyMax c rest) x := by
  induction rest with
  | nil =>
    intro c
    refine ⟨List.mem_cons_self c [], ?_⟩
    intro x hx
    rw [List.mem_singleton] at hx
    subst hx
    exact ltKey_irrefl _
  | cons a t ih =>
    intro c
    by_cases hca : candLt c a
    · have hpm : pyMax c (a :: t) = pyMax a t := by
        unfold pyMax
        simp only [List.foldl_cons]
        rw [if_pos hca]
      obtain ⟨hmem, hmax⟩ := ih a
      rw [hpm]
      refine ⟨List.mem_cons_of_mem _ hmem, ?_⟩
      intro x hx
      rcases List.mem_cons.1 hx with rfl | hx'
      · intro hwc
        exact hmax a (List.mem_cons_self a t) (ltKey_trans hwc hca)
      · exact hmax x hx'
    · have hpm : pyMax c (a :: t) = pyMax c t := by
        unfold pyMax
        simp only [List.foldl_cons]
        rw [if_neg hca]
      obtain ⟨hmem, hmax⟩ := ih c
      rw [hpm]
      constructor
      · rcases List.mem_cons.1 hmem with h | h
        · rw [h]
          exact List.mem_cons_self c (a :: t)
        · exact List.mem_cons_of_mem _ (List.mem_cons_of_mem _ h)
      · intro x hx
        rcases List.mem_cons.1 hx with rfl | hx'
        · exact hmax x (List.mem_cons_self x t)
        · rcases List.mem_cons.1 hx' with rfl | hx''
          · exact ltKey_neg_trans (hmax c (List.mem_cons_self c t)) hca
          · exact hmax x (List.mem_cons_of_mem _ hx'')

/-- C5.  Amended tier-2 behaviour: a key is a candidate iff it is in
the norm-key list, both the query and the key keep at least one
non-stop token, and one token set includes the other; candidate entries
carry the score and the token overlap; the winner returned is a
candidate that no candidate strictly beats in the lexicographic order
(overlap, score, key length) — and on full overlap/score ties the
LONGER normalised key wins, not the shorter one the spec states. -/
theorem tier2_candidacy_and_winner (score : String → String → Rat)
    (nomeNorm : String) (normKeys : List String) :
    (∀ k, (k, score nomeNorm k,
        overlapTok (tokens_relevantes nomeNorm) (tokens_relevantes k))
          ∈ candidatos_inclusao score nomeNorm normKeys
      ↔ (k ∈ normKeys ∧ tokens_relevantes nomeNorm ≠ []
          ∧ tokens_relevantes k ≠ []
          ∧ (subsetTok (tokens_relevantes nomeNorm) (tokens_relevantes k)
             || subsetTok (tokens_relevantes k) (tokens_relevantes nomeNorm))
              = true))
    ∧ (∀ k pr ov, (k, pr, ov) ∈ candidatos_inclusao score nomeNorm normKeys →
        pr = score nomeNorm k
        ∧ ov = overlapTok (tokens_relevantes nomeNorm) (tokens_relevantes k))
    ∧ (∀ c rest, candidatos_inclusao score nomeNorm normKeys = c :: rest →
        pyMax c rest ∈ c :: rest
        ∧ escolher_chave (c :: rest) = some (pyMax c rest).1
        ∧ ∀ x ∈ c :: rest, ¬ candLt (pyMax c rest) x)
    ∧ (∀ a b : String × Rat × Nat, a.2.2 = b.2.2 → a.2.1 = b.2.1 →
        a.1.length < b.1.length →
        escolher_chave [a, b] = some b.1
        ∧ escolher_chave [b, a] = some b.1) := by
  refine ⟨?_, ?_, ?_, ?_⟩
  · intro k
    unfold candidatos_inclusao
    by_cases h0 : tokens_relevantes nomeNorm = []
    · rw [if_pos h0]
      constructor
      · intro h
        exact absurd h (List.not_mem_nil _)
      · rintro ⟨-, hne, -, -⟩
        exact absurd h0 hne
    · rw [if_neg h0, List.mem_filterMap]
      constructor
      · rintro ⟨c, hc, hfc⟩
        by_cases h1 : tokens_relevantes c = []
        · rw [if_pos h1] at hfc
          exact absurd hfc (by simp)
        · rw [if_neg h1] at hfc
          by_cases h2 : (subsetTok (tokens_relevantes nomeNorm)
                (tokens_relevantes c)
              || subsetTok (tokens_relevantes c)
                (tokens_relevantes nomeNorm)) = true
          · rw [if_pos h2] at hfc
            simp only [Option.some.injEq, Prod.mk.injEq] at hfc
            obtain ⟨h3, -, -⟩ := hfc
            subst h3
            exact ⟨hc, h0, h1, h2⟩
          · rw [if_neg h2] at hfc
            exact absurd hfc (by simp)
      · rintro ⟨hk, -, h1, h2⟩
        exact ⟨k, hk, by rw [if_neg h1, if_pos h2]⟩
  · intro k pr ov h
    unfold candidatos_inclusao at h
    by_cases h0 : tokens_relevantes nomeNorm = []
    · rw [if_pos h0] at h
      exact absurd h (List.not_mem_nil _)
    · rw [if_neg h0, List.mem_filterMap] at h
      obtain ⟨c, hc, hfc⟩ := h
      by_cases h1 : tokens_relevantes c = []
      · rw [if_pos h1] at hfc
        exact absurd hfc (by simp)
      · rw [if_neg h1] at hfc
        by_cases h2 : (subsetTok (tokens_relevantes nomeNorm)
              (tokens_relevantes c)
            || subsetTok (tokens_relevantes c)
              (tokens_relevantes nomeNorm)) = true
        · rw [if_pos h2] at hfc
          simp only [Option.some.injEq, Prod.mk.injEq] at hfc
          obtain ⟨h3, h4, h5⟩ := hfc
          subst h3
          exact ⟨h4.symm, h5.symm⟩
        · rw [if_neg h2] at hfc
          exact absurd hfc (by simp)
  · intro c rest _
    obtain ⟨hmem, hmax⟩ := pyMax_spec rest c
    exact ⟨hmem, rfl, hmax⟩
  · intro a b h1 h2 h3
    have hab : candLt a b := Or.inr ⟨h1, Or.inr ⟨h2, h3⟩⟩
    have hba : ¬ candLt b a := (not_ltKey_iff _ _).2 (Or.inl hab)
    constructor
    · show some (pyMax a [b]).1 = some b.1
      unfold pyMax
      simp only [List.foldl_cons, List.foldl_nil]
      rw [if_pos hab]
    · show some (pyMax b [a]).1 = some b.1
      unfold pyMax
      simp only [List.foldl_cons, List.foldl_nil]
      rw [if_neg hba]

def score0 : String → String → Rat := fun _ _ => 0

/-- A ledger whose single company normalises to the pure stop token
`LDA`. -/
def c5Dict : AnoDict := [("Lda", ⟨[(1, 60)], 0, false, []⟩)]

/-- Two companies tied on tokens against the query `Alfa`. -/
def c5Dict2 : AnoDict :=
  [("Alfa Beta", ⟨[(1, 60)], 0, false, []⟩),
   ("Alfa Beta Gama", ⟨[(1, 60)], 0, false, []⟩)]

/-- C5 counterexample to the claimed candidacy rule: the key `LDA`
keeps no relevant token, so its token set is a subset of the query's
(the spec's criterion holds), yet the code skips it — the candidate
list is empty and tier 2 returns no match. -/
theorem tier2_token_subset_counterexample :
    candidato_spec (normalizar_nome "Quinta") (normalizar_nome "Lda") = true
    ∧ norm_keys_of c5Dict = [normalizar_nome "Lda"]
    ∧ candidatos_inclusao score0 (normalizar_nome "Quinta")
        (norm_keys_of c5Dict) = []
    ∧ match_tier2 score0 "Quinta" c5Dict = none := by
  exact ⟨by decide, by decide, by decide, by decide⟩

/-- Witness for C5: against the query `ALFA` both ledger keys are
candidates with overlap 1; with their scores also tied the code picks
the longer key `ALFA BETA GAMA` in either input order. -/
theorem tier2_candidacy_and_winner_witness :
    ("ALFA BETA", score0 "ALFA" "ALFA BETA",
        overlapTok (tokens_relevantes "ALFA") (tokens_relevantes "ALFA BETA"))
      ∈ candidatos_inclusao score0 "ALFA" (norm_keys_of c5Dict2)
    ∧ escolher_chave [("ALFA BETA", (0 : Rat), 1),
        ("ALFA BETA GAMA", (0 : Rat), 1)] = some "ALFA BETA GAMA"
    ∧ escolher_chave [("ALFA BETA GAMA", (0 : Rat), 1),
        ("ALFA BETA", (0 : Rat), 1)] = some "ALFA BETA GAMA"
    ∧ escolher_chave (candidatos_inclusao score0 "ALFA"
        (norm_keys_of c5Dict2)) = some "ALFA BETA GAMA" := by
  refine ⟨?_, ?_, ?_, ?_⟩
  · exact ((tier2_candidacy_and_winner score0 "ALFA"
      (norm_keys_of c5Dict2)).1 "ALFA BETA").2
      ⟨by decide, by decide, by decide, by decide⟩
  · exact ((tier2_candidacy_and_winner score0 "ALFA"
      (norm_keys_of c5Dict2)).2.2.2 ("ALFA BETA", (0 : Rat), 1)
      ("ALFA BETA GAMA", (0 : Rat), 1) rfl rfl (by decide)).1
  · exact ((tier2_candidacy_and_winner score0 "ALFA"
      (norm_keys_of c5Dict2)).2.2.2 ("ALFA BETA", (0 : Rat), 1)
      ("ALFA BETA GAMA", (0 : Rat), 1) rfl rfl (by decide)).2
  · have h := (tier2_candidacy_and_winner score0 "ALFA"
      (norm_keys_of c5Dict2)).2.2.1
      ("ALFA BETA", score0 "ALFA" "ALFA BETA", 1)
      [("ALFA BETA GAMA", score0 "ALFA" "ALFA BETA GAMA", 1)] (by decide)
    rw [(by decide : candidatos_inclusao score0 "ALFA" (norm_keys_of c5Dict2)
      = [("ALFA BETA", score0 "ALFA" "ALFA BETA", 1),
         ("ALFA BETA GAMA", score0 "ALFA" "ALFA BETA GAMA", 1)])]
    exact h.2.1

/-! Tier 3: the bounded fuzzy stage.  `get_close_matches` is an
approximate prefilter returning at most `n=20` names; it is abstracted
as an oracle list `close` with that length bound as hypothesis. -/

/-- Descending-score order on `(key, score)` pairs. -/
def descR (a b : String × Rat) : Prop := b.2 ≤ a.2

instance descRDec : DecidableRel descR :=
  fun a b => inferInstanceAs (Decidable (b.2 ≤ a.2))

instance descRTotal : IsTotal (String × Rat) descR :=
  ⟨fun a b => le_total b.2 a.2⟩

instance descRTrans : IsTrans (String × Rat) descR :=
  ⟨fun _ _ _ h1 h2 => le_trans h2 h1⟩

/-- `ratios.sort(key=lambda x: x[1], reverse=True)`: Python's sort is
stable, so it is the stable insertion sort by descending score. -/
def sortDescRatios (l : List (String × Rat)) : List (String × Rat) :=
  List.insertionSort descR l

/-- `candidatos_fuzzy = close if close else norm_keys[:200]`. -/
def candidatos_fuzzy (close normKeys : List String) : List String :=
  if close ≠ [] then close else normKeys.take 200

/-- Tier 3 of `match_timings` at the normalised-key level: score the
bounded candidate set, sort descending, accept the best key only when
its score clears `0.92` and — unless it is the only candidate — leads
the runner-up by at least `0.03`; otherwise no match plus the top-3
`(key, score)` diagnostics. -/
def match_tier3 (score : String → String → Rat) (nomeNorm : String)
    (close normKeys : List String) : Option String × List (String × Rat) :=
  let ratios := sortDescRatios
    ((candidatos_fuzzy close normKeys).map (fun k => (k, score nomeNorm k)))
  match ratios with
  | [] => (none, [])
  | (bestK, bestSc) :: rest =>
    let secondSc : Rat := match rest with | [] => 0 | (_, s) :: _ => s
    if ratLeB (mkRat 92 100) bestSc
        && (rest.isEmpty || ratLeB (mkRat 3 100) (ratSub bestSc secondSc))
    then (some bestK, [])
    else (none, ratios.take 3)

theorem ratLeB_iff (a b : Rat) : ratLeB a b = true ↔ a ≤ b := by
  unfold ratLeB
  cases h : Rat.blt b a
  · simp [LE.le, h]
  · simp [LE.le, h]

theorem match_tier3_eq (score : String → String → Rat) (nomeNorm : String)
    (close normKeys : List String) (bestK : String) (bestSc : Rat)
    (rest : List (String × Rat))
    (h : sortDescRatios ((candidatos_fuzzy close normKeys).map
        (fun k => (k, score nomeNorm k))) = (bestK, bestSc) :: rest) :
    match_tier3 score nomeNorm close normKeys
      = if (ratLeB (mkRat 92 100) bestSc
            && (rest.isEmpty || ratLeB (mkRat 3 100)
                 (ratSub bestSc (rest.headD ("", 0)).2))) = true
        then (some bestK, [])
        else (none, ((bestK, bestSc) :: rest).take 3) := by
  simp only [match_tier3]
  rw [h]
  rcases rest with _ | ⟨⟨k2, s2⟩, rest'⟩
  · rfl
  · rfl

theorem tier3AcceptIff (bestSc : Rat) (rest : List (String × Rat)) :
    (ratLeB (mkRat 92 100) bestSc
      && (rest.isEmpty || ratLeB (mkRat 3 100)
           (ratSub bestSc (rest.headD ("", 0)).2))) = true
    ↔ (mkRat 92 100 ≤ bestSc
       ∧ (rest = [] ∨ mkRat 3 100 ≤ ratSub bestSc (rest.headD ("", 0)).2)) := by
  simp [Bool.and_eq_true, Bool.or_eq_true, ratLeB_iff, List.isEmpty_iff]

/-- C6.  Tier 3 compares at most the 20 prefilter names, or the first
200 ledger keys when the prefilter is empty; the scored list is the
stable descending sort of those candidates; the best key is returned
iff its score is at least 0.92 and — unless it is the only candidate —
leads the runner-up by at least 0.03; any failure returns no match with
the top-3 scored candidates, and the diagnostics never exceed 3. -/
theorem tier3_bounded_fuzzy (score : String → String → Rat)
    (nomeNorm : String) (close normKeys : List String)
    (hclose : close.length ≤ 20) :
    ((close ≠ [] → candidatos_fuzzy close normKeys = close
        ∧ (candidatos_fuzzy close normKeys).length ≤ 20)
     ∧ (close = [] → candidatos_fuzzy close normKeys = normKeys.take 200)
     ∧ (candidatos_fuzzy close normKeys).length ≤ 200)
    ∧ ((sortDescRatios ((candidatos_fuzzy close normKeys).map
          (fun k => (k, score nomeNorm k)))).Sorted descR
       ∧ (sortDescRatios ((candidatos_fuzzy close normKeys).map
          (fun k => (k, score nomeNorm k)))).Perm
          ((candidatos_fuzzy close normKeys).map
            (fun k => (k, score nomeNorm k))))
    ∧ (∀ bestK bestSc rest,
        sortDescRatios ((candidatos_fuzzy close normKeys).map
          (fun k => (k, score nomeNorm k))) = (bestK, bestSc) :: rest →
        ((match_tier3 score nomeNorm close normKeys).1 = some bestK
          ↔ (mkRat 92 100 ≤ bestSc
             ∧ (rest = []
                ∨ mkRat 3 100 ≤ ratSub bestSc (rest.headD ("", 0)).2)))
        ∧ (∀ x ∈ (bestK, bestSc) :: rest, x.2 ≤ bestSc)
        ∧ (¬ (mkRat 92 100 ≤ bestSc
             ∧ (rest = []
                ∨ mkRat 3 100 ≤ ratSub bestSc (rest.headD ("", 0)).2)) →
           match_tier3 score nomeNorm close normKeys
             = (none, ((bestK, bestSc) :: rest).take 3)))
    ∧ (sortDescRatios ((candidatos_fuzzy close normKeys).map
          (fun k => (k, score nomeNorm k))) = [] →
        match_tier3 score nomeNorm close normKeys = (none, []))
    ∧ (match_tier3 score nomeNorm close normKeys).2.length ≤ 3 := by
  refine ⟨⟨?_, ?_, ?_⟩, ⟨?_, ?_⟩, ?_, ?_, ?_⟩
  · intro hne
    unfold candidatos_fuzzy
    rw [if_pos hne]
    exact ⟨rfl, hclose⟩
  · intro he
    unfold candidatos_fuzzy
    rw [if_neg (by simp [he])]
  · unfold candidatos_fuzzy
    by_cases hne : close ≠ []
    · rw [if_pos hne]
      omega
    · rw [if_neg hne]
      exact le_trans (List.length_take_le 200 normKeys) (by omega)
  · exact List.sorted_insertionSort descR _
  · exact List.perm_insertionSort descR _
  · intro bestK bestSc rest h
    have hsorted : ((bestK, bestSc) :: rest).Sorted descR := by
      rw [← h]
      exact List.sorted_insertionSort descR _
    refine ⟨?_, ?_, ?_⟩
    · rw [match_tier3_eq score nomeNorm close normKeys bestK bestSc rest h]
      by_cases hb : (mkRat 92 100 ≤ bestSc
          ∧ (rest = [] ∨ mkRat 3 100 ≤ ratSub bestSc (rest.headD ("", 0)).2))
      · rw [if_pos ((tier3AcceptIff bestSc rest).2 hb)]
        exact ⟨fun _ => hb, fun _ => rfl⟩
      · rw [if_neg (fun hbb => hb ((tier3AcceptIff bestSc rest).1 hbb))]
        constructor
        · intro hx
          exact absurd hx (by simp)
        · intro hx
          exact absurd hx hb
    · intro x hx
      rcases List.mem_cons.1 hx with rfl | hx'
      · exact le_refl _
      · exact (List.sorted_cons.1 hsorted).1 x hx'
    · intro hnc
      rw [match_tier3_eq score nomeNorm close normKeys bestK bestSc rest h,
        if_neg (fun hbb => hnc ((tier3AcceptIff bestSc rest).1 hbb))]
  · intro h
    simp only [match_tier3]
    rw [h]
  · rcases hr : sortDescRatios ((candidatos_fuzzy close normKeys).map
        (fun k => (k, score nomeNorm k))) with _ | ⟨⟨bk, bs⟩, rest⟩
    · have : match_tier3 score nomeNorm close normKeys = (none, []) := by
        simp only [match_tier3]
        rw [hr]
      rw [this]
      simp
    · rw [match_tier3_eq score nomeNorm close normKeys bk bs rest hr]
      by_cases hb : (ratLeB (mkRat 92 100) bs
          && (rest.isEmpty || ratLeB (mkRat 3 100)
               (ratSub bs (rest.headD ("", 0)).2))) = true
      · rw [if_pos hb]
        simp
      · rw [if_neg hb]
        exact List.length_take_le 3 _

def c6Score1 : String → String → Rat :=
  fun _ k => if k = "ALFA BETA" then mkRat 95 100 else mkRat 50 100

def c6Score2 : String → String → Rat :=
  fun _ k => if k = "ALFA BETA" then mkRat 95 100 else mkRat 94 100

def c6Keys : List String := List.replicate 300 "K"

/-- Witness for C6: a lone prefilter hit at score 0.95 is accepted; two
candidates 0.01 apart are rejected with both reported as diagnostics;
with an empty prefilter over 300 keys the comparison set stops at
200. -/
theorem tier3_bounded_fuzzy_witness :
    (match_tier3 c6Score1 "X" ["ALFA BETA"] ["ALFA BETA", "GAMA"]).1
        = some "ALFA BETA"
    ∧ match_tier3 c6Score2 "X" ["ALFA BETA", "ALFA BETB"] []
        = (none, [("ALFA BETA", mkRat 95 100), ("ALFA BETB", mkRat 94 100)])
    ∧ (candidatos_fuzzy [] c6Keys).length ≤ 200 := by
  refine ⟨?_, ?_, ?_⟩
  · exact (((tier3_bounded_fuzzy c6Score1 "X" ["ALFA BETA"]
      ["ALFA BETA", "GAMA"] (by decide)).2.2.1 "ALFA BETA" (mkRat 95 100) []
      (by decide)).1).2 ⟨by decide, Or.inl rfl⟩
  · exact ((tier3_bounded_fuzzy c6Score2 "X" ["ALFA BETA", "ALFA BETB"] []
      (by decide)).2.2.1 "ALFA BETA" (mkRat 95 100)
      [("ALFA BETB", mkRat 94 100)] (by decide)).2.2 (by decide)
  · exact (tier3_bounded_fuzzy c6Score1 "X" [] c6Keys (by decide)).1.2.2

end PAC
